import Mathlib

/-!
Verification of the PII detection and redaction engine
(`detector_varikuti_Narendra_Reddy.py`).

Strings are modelled as `List Char`; a decoded JSON record is a list of
(field name, value) pairs; regular-expression search is embedded as a
decidable existence check of a match, with Python `\b` word-boundary
semantics made explicit.
-/

namespace PII

/-! ## Character classes (Python regex classes, ASCII range) -/

/-- Python regex `\d`. -/
def isDigitB (c : Char) : Bool := c.isDigit

/-- Python regex `[1-9]`. -/
def isDigit19 (c : Char) : Bool := decide ('1' ≤ c) && decide (c ≤ '9')

/-- Python regex `\w` (word character). -/
def isWordB (c : Char) : Bool := c.isAlphanum || c == '_'

/-- Python regex `\s` (whitespace). -/
def isSpaceB (c : Char) : Bool :=
  c == ' ' || c == '\t' || c == '\n' || c == '\r' || c == '\x0b' || c == '\x0c'

/-- `PASSPORT_REGEX` first char class `[A-PR-WYa-pr-wy]` under `re.IGNORECASE`. -/
def isPassLetterB (c : Char) : Bool :=
  let d := c.toLower
  (decide ('a' ≤ d) && decide (d ≤ 'p')) || (decide ('r' ≤ d) && decide (d ≤ 'w')) || d == 'y'

/-- `UPI_REGEX` local-part class `[\w\.\-]`. -/
def isUpiLocalB (c : Char) : Bool := isWordB c || c == '.' || c == '-'

/-- `EMAIL_REGEX` local-part class `[A-Za-z0-9._%+-]`. -/
def isEmailLocalB (c : Char) : Bool :=
  c.isAlphanum || c == '.' || c == '_' || c == '%' || c == '+' || c == '-'

/-- `EMAIL_REGEX` domain class `[A-Za-z0-9.-]`. -/
def isEmailDomB (c : Char) : Bool := c.isAlphanum || c == '.' || c == '-'

/-- `EMAIL_REGEX` top-level-label class `[A-Z|a-z]` (the `|` is part of the class). -/
def isTldB (c : Char) : Bool := c.isAlpha || c == '|'

/-! ## Word boundaries and fixed-shape token matching -/

/-- Is the character at index `i` a word character (`false` outside the string)? -/
def wordAt (l : List Char) (i : Nat) : Bool :=
  decide (i < l.length) && isWordB (l.getD i ' ')

/-- Python regex `\b` holds at position `i` (between index `i - 1` and index `i`). -/
def bAt (l : List Char) (i : Nat) : Bool :=
  (decide (0 < i) && wordAt l (i - 1)) != wordAt l i

/-- Match a list of character predicates at consecutive positions from `i`. -/
def matchSeq : List (Char → Bool) → List Char → Nat → Bool
  | [], _, _ => true
  | p :: ps, l, i => decide (i < l.length) && p (l.getD i ' ') && matchSeq ps l (i + 1)

/-- A whole-token match at `i`: `\b`, the fixed-shape pattern, `\b`.
Sound for patterns whose first and last classes contain only word characters. -/
def tokenSearchAt (l : List Char) (i : Nat) (ps : List (Char → Bool)) : Bool :=
  bAt l i && matchSeq ps l i && bAt l (i + ps.length)

/-- `\s?`: an optional single whitespace position. -/
def optWs (b : Bool) : List (Char → Bool) := if b then [isSpaceB] else []

/-! ## The four standalone regexes and the email regex, as search predicates -/

/-- `PHONE_REGEX = \b\d{10}\b`, truthiness of `re.search`. -/
def phoneSearch (l : List Char) : Bool :=
  (List.range (l.length + 1)).any fun i => tokenSearchAt l i (List.replicate 10 isDigitB)

/-- The `AADHAR_REGEX` pattern `\b\d{4}\s?\d{4}\s?\d{4}\b` with given choices
for the two optional whitespace characters. -/
def aadharPat (b1 b2 : Bool) : List (Char → Bool) :=
  List.replicate 4 isDigitB ++ optWs b1 ++ List.replicate 4 isDigitB ++ optWs b2 ++
    List.replicate 4 isDigitB

/-- `AADHAR_REGEX`, truthiness of `re.search`. -/
def aadharSearch (l : List Char) : Bool :=
  (List.range (l.length + 1)).any fun i =>
    [(false, false), (false, true), (true, false), (true, true)].any fun bb =>
      tokenSearchAt l i (aadharPat bb.1 bb.2)

/-- The `PASSPORT_REGEX` pattern `\b[A-PR-WYa-pr-wy][1-9]\d\s?\d{4}[1-9]\b`
with the given choice for the optional whitespace. -/
def passportPat (b : Bool) : List (Char → Bool) :=
  [isPassLetterB, isDigit19, isDigitB] ++ optWs b ++ List.replicate 4 isDigitB ++ [isDigit19]

/-- `PASSPORT_REGEX`, truthiness of `re.search`. -/
def passportSearch (l : List Char) : Bool :=
  (List.range (l.length + 1)).any fun i =>
    [false, true].any fun b => tokenSearchAt l i (passportPat b)

/-- `UPI_REGEX = [\w\.\-]+@\w+`, truthiness of `re.search`: some `@` preceded by a
local-class character and followed by a word character. -/
def upiSearch (l : List Char) : Bool :=
  (List.range l.length).any fun i =>
    l.getD i ' ' == '@' && (decide (0 < i) && isUpiLocalB (l.getD (i - 1) ' ')) &&
      wordAt l (i + 1)

/-- All characters of `l` in index range `[i, j)` satisfy `p`. -/
def rangeAll (l : List Char) (i j : Nat) (p : Char → Bool) : Bool :=
  ((l.drop i).take (j - i)).all p

/-- `EMAIL_REGEX = \b[A-Za-z0-9._%+-]+@[A-Za-z0-9.-]+\.[A-Z|a-z]{2,}\b`,
truthiness of `re.search`: a decomposition local `@` domain `.` label exists. -/
def emailSearch (l : List Char) : Bool :=
  (List.range l.length).any fun q =>
    l.getD q ' ' == '@' &&
    ((List.range q).any fun p => rangeAll l p q isEmailLocalB && bAt l p) &&
    ((List.range l.length).any fun r =>
      decide (q + 1 < r) && l.getD r ' ' == '.' && rangeAll l (q + 1) r isEmailDomB &&
      ((List.range (l.length + 1)).any fun t =>
        decide (r + 3 ≤ t) && decide (t ≤ l.length) && rangeAll l (r + 1) t isTldB && bAt l t))

/-! ## Python string operations -/

/-- Accumulator version of Python `str.split()` (split on whitespace runs,
no empty tokens). -/
def splitWsAux : List Char → List Char → List (List Char)
  | [], acc => if acc.isEmpty then [] else [acc.reverse]
  | c :: cs, acc =>
      if isSpaceB c then
        if acc.isEmpty then splitWsAux cs [] else acc.reverse :: splitWsAux cs []
      else splitWsAux cs (c :: acc)

/-- Python `str.split()` with no arguments. -/
def pySplitWs (l : List Char) : List (List Char) := splitWsAux l []

/-- Python `str.strip()` with no arguments. -/
def pyStrip (l : List Char) : List Char :=
  ((l.dropWhile isSpaceB).reverse.dropWhile isSpaceB).reverse

/-- Python truthiness of `not value.strip()`: the value is blank. -/
def isBlank (l : List Char) : Bool := (pyStrip l).isEmpty

/-- Accumulator version of Python `str.split(sep)` for a one-character separator
(keeps empty pieces). -/
def splitOnCharAux (sep : Char) : List Char → List Char → List (List Char)
  | [], acc => [acc.reverse]
  | c :: cs, acc =>
      if c == sep then acc.reverse :: splitOnCharAux sep cs []
      else splitOnCharAux sep cs (c :: acc)

/-- Python `str.split(sep)` for a one-character separator. -/
def splitOnChar (sep : Char) (l : List Char) : List (List Char) := splitOnCharAux sep l []

/-- Python `' '.join(parts)`. -/
def pyJoinSp : List (List Char) → List Char
  | [] => []
  | [t] => t
  | t :: t2 :: rest => t ++ ' ' :: pyJoinSp (t2 :: rest)

/-! ## Redaction functions -/

/-- `redact_phone`: `f"{phone_str[:2]}XXXXXX{phone_str[-2:]}"`. -/
def redact_phone (s : List Char) : List Char :=
  s.take 2 ++ List.replicate 6 'X' ++ s.drop (s.length - 2)

/-- `redact_aadhar`: `f"XXXXXXXX{aadhar_str.replace(' ', '')[-4:]}"`. -/
def redact_aadhar (s : List Char) : List Char :=
  let t := s.filter fun c => !(c == ' ')
  List.replicate 8 'X' ++ t.drop (t.length - 4)

/-- `redact_passport`: `f"{passport_str[0]}XXXXXX{passport_str[-1]}"`; the two
indexing operations raise `IndexError` on an empty string, hence `Option`. -/
def redact_passport (s : List Char) : Option (List Char) :=
  match s with
  | [] => none
  | c :: cs => some (c :: (List.replicate 6 'X' ++ [List.getLastD cs c]))

/-- `redact_name`: each whitespace token `p` becomes `p[0] + 'X' * (len(p) - 1)`
(empty tokens are skipped), rejoined with single spaces. -/
def redact_name (s : List Char) : List Char :=
  pyJoinSp ((pySplitWs s).filterMap fun p =>
    match p with
    | [] => none
    | c :: cs => some (c :: List.replicate cs.length 'X'))

/-- The `"[REDACTED_EMAIL]"` sentinel of `redact_email`. -/
def emailSentinel : List Char := "[REDACTED_EMAIL]".toList

/-- The local-part masking of `redact_email`: a local part longer than 2 keeps
its first and last characters around `XXX` (`local_part[0]`/`local_part[-1]`),
otherwise it is replaced by `X`s of the same length. -/
def emailMask (a : List Char) : List Char :=
  if 2 < a.length then
    match a with
    | [] => []
    | c :: cs => c :: (List.replicate 3 'X' ++ [List.getLastD cs c])
  else List.replicate a.length 'X'

/-- `redact_email`: split on the first `@`, mask the local part, keep the
domain; with no `@` the `ValueError` handler returns the sentinel. -/
def redact_email (s : List Char) : List Char :=
  match s.dropWhile (fun c => !(c == '@')) with
  | _ :: dom => emailMask (s.takeWhile fun c => !(c == '@')) ++ '@' :: dom
  | [] => emailSentinel

/-! ## Records and values -/

/-- A decoded JSON scalar value. -/
inductive Value where
  | str (s : List Char)
  | num (n : Int)
  | bool (b : Bool)
  | null
deriving DecidableEq

/-- A decoded record: field names with values, in insertion order. -/
abbrev Record : Type := List (String × Value)

/-- `Value.str` from a string literal. -/
def vstr (s : String) : Value := Value.str s.toList

/-- A record (mapping) has no repeated field name. -/
def keysNodup (r : Record) : Prop := (r.map Prod.fst).Nodup

instance (r : Record) : Decidable (keysNodup r) :=
  inferInstanceAs (Decidable (List.Nodup _))

/-- Python `redacted_data[key] = v` for a key already present: replace the value
of every pair whose name is `key`, keeping order. -/
def updateField (r : Record) (k : String) (v : Value) : Record :=
  r.map fun kv => if kv.1 == k then (kv.1, v) else kv

/-- Python `redacted_data[key]` / `key in redacted_data`: value at the first
occurrence of `key`, if any. -/
def lookupVal (r : Record) (k : String) : Option Value :=
  match r with
  | [] => none
  | kv :: rest => if kv.1 == k then some kv.2 else lookupVal rest k

/-! ## The matcher conditions of `process_record`, in source order -/

/-- `PHONE_REGEX.search(value) and key in ['phone', 'contact']`. -/
def phoneCond (k : String) (s : List Char) : Bool :=
  phoneSearch s && (k == "phone" || k == "contact")

/-- `AADHAR_REGEX.search(value) and key in ['aadhar', 'address_proof']`. -/
def aadharCond (k : String) (s : List Char) : Bool :=
  aadharSearch s && (k == "aadhar" || k == "address_proof")

/-- `PASSPORT_REGEX.search(value) and key in ['passport']`. -/
def passportCond (k : String) (s : List Char) : Bool :=
  passportSearch s && k == "passport"

/-- `UPI_REGEX.search(value) and key in ['upi_id']`. -/
def upiCond (k : String) (s : List Char) : Bool :=
  upiSearch s && k == "upi_id"

/-- `key == 'name' and len(value.strip().split()) > 1`. -/
def nameCond (k : String) (s : List Char) : Bool :=
  k == "name" && decide (1 < (pySplitWs (pyStrip s)).length)

/-- `EMAIL_REGEX.search(value) and key == 'email'`. -/
def emailCond (k : String) (s : List Char) : Bool :=
  emailSearch s && k == "email"

/-- `key == 'address' and len(value.strip()) > 10`. -/
def addressCond (k : String) (s : List Char) : Bool :=
  k == "address" && decide (10 < (pyStrip s).length)

/-- `key in ['ip_address', 'device_id']`. -/
def deviceCond (k : String) : Bool :=
  k == "ip_address" || k == "device_id"

/-! ## The record evaluator -/

/-- The `"[REDACTED_UPI]"` sentinel. -/
def upiSentinel : List Char := "[REDACTED_UPI]".toList

/-- The `"[REDACTED_ADDRESS]"` sentinel. -/
def addressSentinel : List Char := "[REDACTED_ADDRESS]".toList

/-- The `"[REDACTED_IDENTIFIER]"` sentinel. -/
def identifierSentinel : List Char := "[REDACTED_IDENTIFIER]".toList

/-- The set of combinatorial categories seen so far (`combinatorial_keys`). -/
structure Cats where
  name : Bool
  email : Bool
  address : Bool
  device : Bool
deriving DecidableEq

/-- The mutable state of one `process_record` evaluation: the (read-only) input
dict `data`, the copy `redacted_data`, the `is_pii_found` flag, and the
`combinatorial_keys` set. -/
structure ScanState where
  data : Record
  redacted : Record
  pii : Bool
  cats : Cats
deriving DecidableEq

/-- One iteration of the Step-1 loop of `process_record` over `(key, value)`:
the `if/elif` chain in source order.  The two partial accesses of the source
(`passport_str[0]`/`[-1]` and `value.split('@')[1]`) surface as `none`. -/
def fieldStep (st : ScanState) (kv : String × Value) : Option ScanState :=
  match kv.2 with
  | Value.str s =>
      if isBlank s then some st
      else if phoneCond kv.1 s then
        some { st with pii := true,
                       redacted := updateField st.redacted kv.1 (Value.str (redact_phone s)) }
      else if aadharCond kv.1 s then
        some { st with pii := true,
                       redacted := updateField st.redacted kv.1 (Value.str (redact_aadhar s)) }
      else if passportCond kv.1 s then
        match redact_passport s with
        | some w => some { st with pii := true,
                                   redacted := updateField st.redacted kv.1 (Value.str w) }
        | none => none
      else if upiCond kv.1 s then
        match splitOnChar '@' s with
        | _ :: seg :: _ =>
            if (splitOnChar '.' seg).length == 1 then
              some { st with pii := true,
                             redacted := updateField st.redacted kv.1 (Value.str upiSentinel) }
            else some st
        | _ => none
      else if nameCond kv.1 s then some { st with cats := { st.cats with name := true } }
      else if emailCond kv.1 s then some { st with cats := { st.cats with email := true } }
      else if addressCond kv.1 s then some { st with cats := { st.cats with address := true } }
      else if deviceCond kv.1 then some { st with cats := { st.cats with device := true } }
      else some st
  | _ => some st

/-- The Step-1 loop `for key, value in data.items()`. -/
def scanFields : ScanState → List (String × Value) → Option ScanState
  | st, [] => some st
  | st, kv :: rest =>
      match fieldStep st kv with
      | none => none
      | some st2 => scanFields st2 rest

/-- Run Step 1 from the initial state (`redacted_data = data.copy()`). -/
def processState (r : Record) : Option ScanState :=
  scanFields ⟨r, r, false, ⟨false, false, false, false⟩⟩ r

/-- `len(combinatorial_keys)`. -/
def catCount (c : Cats) : Nat :=
  c.name.toNat + c.email.toNat + c.address.toNat + c.device.toNat

/-- The Step-3 per-key transform chain (`redact_name` / `redact_email` /
address sentinel / identifier sentinel). -/
def combTransform (key : String) (s : List Char) : List Char :=
  if key == "name" then redact_name s
  else if key == "email" then redact_email s
  else if key == "address" then addressSentinel
  else identifierSentinel

/-- Step 3 for one key of `pii_fields_to_redact`: redact in the copy only if the
key is present and its current value is a string. -/
def redactCombField (r : Record) (key : String) : Record :=
  match lookupVal r key with
  | some (Value.str s) => updateField r key (Value.str (combTransform key s))
  | _ => r

/-- Apply `redactCombField` when the key was selected for combinatorial
redaction. -/
def combStep (b : Bool) (key : String) (r : Record) : Record :=
  if b then redactCombField r key else r

/-- `process_record`: Step 1 (scan), Step 2 (escalation decision), Step 3
(combinatorial redaction), returning `(redacted_data, is_pii_found)`. -/
def processRecord (r : Record) : Option (Record × Bool) :=
  match processState r with
  | none => none
  | some st =>
      let esc := decide (2 ≤ catCount st.cats)
      let r1 := combStep (esc && st.cats.name) "name" st.redacted
      let r2 := combStep (esc && st.cats.email) "email" r1
      let r3 := combStep (esc && st.cats.address) "address" r2
      let r4 := combStep (esc && st.cats.device) "ip_address" r3
      let r5 := combStep (esc && st.cats.device) "device_id" r4
      some (r5, st.pii || esc)

/-! ## Per-field characterization of the scan (proof devices) -/

/-- The inner dot-free check of the UPI branch,
`len(value.split('@')[1].split('.')) == 1` (`false` when `[1]` would raise). -/
def upiInner (s : List Char) : Bool :=
  match splitOnChar '@' s with
  | _ :: seg :: _ => (splitOnChar '.' seg).length == 1
  | _ => false

/-- The value a single string field has after Step 1. -/
def step1ValS (k : String) (s : List Char) : List Char :=
  if isBlank s then s
  else if phoneCond k s then redact_phone s
  else if aadharCond k s then redact_aadhar s
  else if passportCond k s then (redact_passport s).getD s
  else if upiCond k s then
    match splitOnChar '@' s with
    | _ :: seg :: _ => if (splitOnChar '.' seg).length == 1 then upiSentinel else s
    | _ => s
  else s

/-- The value a single field has after Step 1. -/
def step1Val (k : String) (v : Value) : Value :=
  match v with
  | Value.str s => Value.str (step1ValS k s)
  | w => w

/-- Whether a single field fires a standalone redaction (sets `is_pii_found`). -/
def step1Pii (k : String) (v : Value) : Bool :=
  match v with
  | Value.str s =>
      !isBlank s && (phoneCond k s || aadharCond k s || passportCond k s ||
        (upiCond k s && upiInner s))
  | _ => false

/-- Whether a single field adds `'name'` to `combinatorial_keys`. -/
def trigName (k : String) (v : Value) : Bool :=
  match v with
  | Value.str s =>
      !isBlank s && !phoneCond k s && !aadharCond k s && !passportCond k s &&
        !upiCond k s && nameCond k s
  | _ => false

/-- Whether a single field adds `'email'` to `combinatorial_keys`. -/
def trigEmail (k : String) (v : Value) : Bool :=
  match v with
  | Value.str s =>
      !isBlank s && !phoneCond k s && !aadharCond k s && !passportCond k s &&
        !upiCond k s && !nameCond k s && emailCond k s
  | _ => false

/-- Whether a single field adds `'address'` to `combinatorial_keys`. -/
def trigAddress (k : String) (v : Value) : Bool :=
  match v with
  | Value.str s =>
      !isBlank s && !phoneCond k s && !aadharCond k s && !passportCond k s &&
        !upiCond k s && !nameCond k s && !emailCond k s && addressCond k s
  | _ => false

/-- Whether a single field adds `'device_context'` to `combinatorial_keys`. -/
def trigDevice (k : String) (v : Value) : Bool :=
  match v with
  | Value.str s =>
      !isBlank s && !phoneCond k s && !aadharCond k s && !passportCond k s &&
        !upiCond k s && !nameCond k s && !emailCond k s && !addressCond k s &&
        deviceCond k
  | _ => false

/-- The `combinatorial_keys` set accumulated over a whole record. -/
def catsOf (r : Record) : Cats :=
  ⟨r.any fun kv => trigName kv.1 kv.2,
   r.any fun kv => trigEmail kv.1 kv.2,
   r.any fun kv => trigAddress kv.1 kv.2,
   r.any fun kv => trigDevice kv.1 kv.2⟩

/-- `redacted_data` after Step 1. -/
def scanOut (r : Record) : Record :=
  r.map fun kv => (kv.1, step1Val kv.1 kv.2)

/-- `is_pii_found` after Step 1. -/
def anyPii (r : Record) : Bool :=
  r.any fun kv => step1Pii kv.1 kv.2

/-- The Step-2 escalation condition `len(combinatorial_keys) >= 2`. -/
def escalates (c : Cats) : Bool := decide (2 ≤ catCount c)

/-- Whether Step 3 selects field `k` for combinatorial redaction. -/
def combSelected (c : Cats) (k : String) : Bool :=
  escalates c && ((c.name && k == "name") || (c.email && k == "email") ||
    (c.address && k == "address") || (c.device && (k == "ip_address" || k == "device_id")))

/-- The final value of field `k` holding `v`, over the whole evaluation. -/
def finalVal (c : Cats) (k : String) (v : Value) : Value :=
  if combSelected c k then
    match step1Val k v with
    | Value.str s => Value.str (combTransform k s)
    | w => w
  else step1Val k v

/-- The redacted record returned by `process_record`. -/
def postRecord (r : Record) : Record :=
  combStep (escalates (catsOf r) && (catsOf r).device) "device_id"
    (combStep (escalates (catsOf r) && (catsOf r).device) "ip_address"
      (combStep (escalates (catsOf r) && (catsOf r).address) "address"
        (combStep (escalates (catsOf r) && (catsOf r).email) "email"
          (combStep (escalates (catsOf r) && (catsOf r).name) "name" (scanOut r)))))

/-- Modelled from the spec: "value matches `local@domain` token shape AND the
domain portion (text after `@`) contains no `.`" — the standalone-UPI criterion
in the spec's own words, with the domain portion read as everything after the
first `@` of the value. -/
def specUpiStandalone (s : List Char) : Bool :=
  upiSearch s && !(((s.dropWhile fun c => !(c == '@')).drop 1).contains '.')

/-- A value the matchers skip: not a string, or a blank string. -/
def skipValue : Value → Bool
  | Value.str s => isBlank s
  | _ => true

/-! ## Basic facts about the matching machinery -/

theorem matchSeq_le (ps : List (Char → Bool)) (p : Char → Bool) (l : List Char) (i : Nat)
    (hm : matchSeq (p :: ps) l i = true) : i + ps.length + 1 ≤ l.length := by
  induction ps generalizing p i with
  | nil =>
      simp only [matchSeq, Bool.and_eq_true, decide_eq_true_eq] at hm
      simp only [List.length_nil]
      omega
  | cons q qs ih =>
      simp only [matchSeq, Bool.and_eq_true, decide_eq_true_eq] at hm
      have := ih q (i + 1) (by
        simp only [matchSeq, Bool.and_eq_true, decide_eq_true_eq]
        exact hm.2)
      simp only [List.length_cons]
      omega

theorem matchSeq_head (ps : List (Char → Bool)) (p : Char → Bool) (l : List Char) (i : Nat)
    (hm : matchSeq (p :: ps) l i = true) :
    i < l.length ∧ p (l.getD i ' ') = true ∧ matchSeq ps l (i + 1) = true := by
  simp only [matchSeq, Bool.and_eq_true, decide_eq_true_eq] at hm
  exact ⟨hm.1.1, hm.1.2, hm.2⟩

theorem matchSeq_digits (n : Nat) (l : List Char) (i : Nat)
    (hm : matchSeq (List.replicate n isDigitB) l i = true) :
    ∀ j, j < n → isDigitB (l.getD (i + j) ' ') = true := by
  induction n generalizing i with
  | zero => intro j hj; omega
  | succ m ih =>
      rw [List.replicate_succ] at hm
      obtain ⟨hi, hd, hrest⟩ := matchSeq_head _ _ _ _ hm
      intro j hj
      cases j with
      | zero => simpa using hd
      | succ j2 =>
          have := ih (i + 1) hrest j2 (by omega)
          rw [show i + (j2 + 1) = i + 1 + j2 from by omega]
          exact this

theorem splitOnCharAux_len_pos (sep : Char) :
    ∀ (l acc : List Char), 1 ≤ (splitOnCharAux sep l acc).length := by
  intro l
  induction l with
  | nil => intro acc; simp [splitOnCharAux]
  | cons c cs ih =>
      intro acc
      by_cases hc : (c == sep) = true
      · simp [splitOnCharAux, hc]
      · simp only [splitOnCharAux, hc, Bool.false_eq_true, if_false]
        exact ih _

theorem splitOnCharAux_len_two (sep : Char) :
    ∀ (l acc : List Char), sep ∈ l → 2 ≤ (splitOnCharAux sep l acc).length := by
  intro l
  induction l with
  | nil => intro acc h; simp at h
  | cons c cs ih =>
      intro acc h
      by_cases hc : (c == sep) = true
      · have := splitOnCharAux_len_pos sep cs []
        simp only [splitOnCharAux, hc, if_true, List.length_cons]
        omega
      · have hmem : sep ∈ cs := by
          rcases List.mem_cons.mp h with h1 | h1
          · exact absurd (by simp [h1]) hc
          · exact h1
        simp only [splitOnCharAux, hc, Bool.false_eq_true, if_false]
        exact ih _ hmem

theorem splitOnChar_len_two (sep : Char) (l : List Char) (h : sep ∈ l) :
    2 ≤ (splitOnChar sep l).length :=
  splitOnCharAux_len_two sep l [] h

theorem upiSearch_mem (s : List Char) (h : upiSearch s = true) : '@' ∈ s := by
  simp only [upiSearch, List.any_eq_true, List.mem_range] at h
  obtain ⟨i, hi, hcond⟩ := h
  simp only [Bool.and_eq_true, beq_iff_eq] at hcond
  have hat : s.getD i ' ' = '@' := hcond.1.1
  rw [List.getD_eq_getElem s ' ' hi] at hat
  rw [← hat]
  exact List.getElem_mem hi

theorem phoneSearch_len (s : List Char) (h : phoneSearch s = true) : 10 ≤ s.length := by
  simp only [phoneSearch, List.any_eq_true, List.mem_range] at h
  obtain ⟨i, _, htok⟩ := h
  simp only [tokenSearchAt, Bool.and_eq_true] at htok
  have hm := htok.1.2
  rw [show (10 : Nat) = 9 + 1 from rfl, List.replicate_succ] at hm
  have := matchSeq_le _ _ _ _ hm
  simp only [List.length_replicate] at this
  omega

theorem isBlank_iff (s : List Char) : isBlank s = true ↔ ∀ c ∈ s, isSpaceB c = true := by
  unfold isBlank pyStrip
  rw [List.isEmpty_iff, List.reverse_eq_nil_iff, List.dropWhile_eq_nil_iff]
  constructor
  · intro h c hc
    have hsplit : s.takeWhile isSpaceB ++ s.dropWhile isSpaceB = s :=
      List.takeWhile_append_dropWhile isSpaceB s
    rw [← hsplit] at hc
    rcases List.mem_append.mp hc with h1 | h1
    · exact List.mem_takeWhile_imp h1
    · exact h c (by rwa [List.mem_reverse])
  · intro h c hc
    rw [List.mem_reverse] at hc
    exact h c ((List.dropWhile_sublist _).subset hc)

theorem isBlank_eq_false_of_mem (s : List Char) (c : Char) (h : c ∈ s)
    (hc : isSpaceB c = false) : isBlank s = false := by
  cases hb : isBlank s with
  | false => rfl
  | true => exact absurd ((isBlank_iff s).mp hb c h) (by simp [hc])

theorem not_space_of_digit (c : Char) (hc : isDigitB c = true) : isSpaceB c = false := by
  cases hs : isSpaceB c with
  | false => rfl
  | true =>
      exfalso
      have hs2 : c = ' ' ∨ c = '\t' ∨ c = '\n' ∨ c = '\r' ∨ c = '\x0b' ∨ c = '\x0c' := by
        simpa [isSpaceB, or_assoc] using hs
      rcases hs2 with h | h | h | h | h | h <;> subst h <;> exact absurd hc (by decide)

theorem phoneSearch_not_blank (s : List Char) (h : phoneSearch s = true) :
    isBlank s = false := by
  simp only [phoneSearch, List.any_eq_true, List.mem_range] at h
  obtain ⟨i, _, htok⟩ := h
  simp only [tokenSearchAt, Bool.and_eq_true] at htok
  have hm := htok.1.2
  rw [show (10 : Nat) = 9 + 1 from rfl, List.replicate_succ] at hm
  obtain ⟨hi, hd, _⟩ := matchSeq_head _ _ _ _ hm
  rw [List.getD_eq_getElem s ' ' hi] at hd
  exact isBlank_eq_false_of_mem s _ (List.getElem_mem hi) (not_space_of_digit _ hd)

theorem upiSearch_not_blank (s : List Char) (h : upiSearch s = true) :
    isBlank s = false :=
  isBlank_eq_false_of_mem s '@' (upiSearch_mem s h) (by decide)

theorem passportSearch_ne_nil (s : List Char) (h : passportSearch s = true) : s ≠ [] := by
  simp only [passportSearch, List.any_eq_true, List.mem_range] at h
  obtain ⟨i, _, b, _, htok⟩ := h
  simp only [tokenSearchAt, Bool.and_eq_true] at htok
  have hm := htok.1.2
  simp only [passportPat, List.cons_append] at hm
  obtain ⟨hi, _, _⟩ := matchSeq_head _ _ _ _ hm
  intro hnil
  rw [hnil] at hi
  simp at hi

/-! ## Facts about record updates and lookups -/

theorem keys_updateField (r : Record) (k : String) (v : Value) :
    (updateField r k v).map Prod.fst = r.map Prod.fst := by
  unfold updateField
  rw [List.map_map]
  apply List.map_congr_left
  intro kv _
  simp only [Function.comp_apply]
  split <;> rfl

theorem updateField_id (r : Record) (k : String) (v : Value)
    (h : k ∉ r.map Prod.fst) : updateField r k v = r := by
  induction r with
  | nil => rfl
  | cons kv rest ih =>
      simp only [List.map_cons, List.mem_cons, not_or] at h
      have hne : (kv.1 == k) = false := by
        simp only [beq_eq_false_iff_ne, ne_eq]
        exact fun e => h.1 e.symm
      simp only [updateField, List.map_cons, hne, Bool.false_eq_true, if_false]
      have := ih h.2
      simp only [updateField] at this
      rw [this]

theorem updateField_append (l1 l2 : Record) (k : String) (v x : Value)
    (h1 : k ∉ l1.map Prod.fst) (h2 : k ∉ l2.map Prod.fst) :
    updateField (l1 ++ (k, v) :: l2) k x = l1 ++ (k, x) :: l2 := by
  simp only [updateField, List.map_append, List.map_cons, beq_self_eq_true, if_true]
  have e1 := updateField_id l1 k x h1
  have e2 := updateField_id l2 k x h2
  simp only [updateField] at e1 e2
  rw [e1, e2]

theorem lookupVal_map_keyed (g : String → Value → Value) :
    ∀ (r : Record) (k : String),
      lookupVal (r.map fun kv => (kv.1, g kv.1 kv.2)) k = (lookupVal r k).map (g k) := by
  intro r
  induction r with
  | nil => intro k; rfl
  | cons kv rest ih =>
      intro k
      simp only [List.map_cons, lookupVal]
      by_cases h : kv.1 = k
      · subst h
        simp
      · have hne : (kv.1 == k) = false := by simp [beq_eq_false_iff_ne, h]
        simp only [hne, Bool.false_eq_true, if_false]
        exact ih k

theorem lookupVal_updateField_self (r : Record) (k : String) (x : Value) :
    lookupVal (updateField r k x) k = (lookupVal r k).map fun _ => x := by
  induction r with
  | nil => rfl
  | cons kv rest ih =>
      simp only [updateField, List.map_cons, lookupVal]
      by_cases h : kv.1 = k
      · subst h
        simp
      · have hne : (kv.1 == k) = false := by simp [beq_eq_false_iff_ne, h]
        simp only [hne, Bool.false_eq_true, if_false, lookupVal]
        simpa [updateField] using ih

theorem lookupVal_updateField_ne (r : Record) (k k2 : String) (x : Value)
    (h : k2 ≠ k) : lookupVal (updateField r k x) k2 = lookupVal r k2 := by
  induction r with
  | nil => rfl
  | cons kv rest ih =>
      simp only [updateField, List.map_cons, lookupVal]
      by_cases hh : kv.1 = k
      · subst hh
        have hne2 : (kv.1 == k2) = false := by
          simp only [beq_eq_false_iff_ne, ne_eq]
          exact fun e => h (by rw [e])
        simp only [hne2, Bool.false_eq_true, if_false, beq_self_eq_true, if_true, lookupVal]
        simp only [updateField] at ih
        exact ih
      · have hne : (kv.1 == k) = false := by simp [beq_eq_false_iff_ne, hh]
        simp only [hne, Bool.false_eq_true, if_false, lookupVal]
        by_cases h2 : kv.1 = k2
        · subst h2
          simp
        · have hne2 : (kv.1 == k2) = false := by simp [beq_eq_false_iff_ne, h2]
          simp only [hne2, Bool.false_eq_true, if_false]
          simp only [updateField] at ih
          exact ih

theorem lookupVal_mem (r : Record) (k : String) (v : Value)
    (h : lookupVal r k = some v) : (k, v) ∈ r := by
  induction r with
  | nil => simp [lookupVal] at h
  | cons kv rest ih =>
      simp only [lookupVal] at h
      by_cases hh : kv.1 = k
      · subst hh
        simp only [beq_self_eq_true, if_true, Option.some.injEq] at h
        exact List.mem_cons.mpr (Or.inl (by rw [← h]))
      · have hne : (kv.1 == k) = false := by simp [beq_eq_false_iff_ne, hh]
        rw [hne] at h
        simp only [Bool.false_eq_true, if_false] at h
        exact List.mem_cons_of_mem _ (ih h)

/-! ## One step of the scan, characterized -/

theorem fieldStep_shape (st : ScanState) (k : String) (v : Value) (p s2 : Record)
    (h1 : st.redacted = p ++ (k, v) :: s2) (hk1 : k ∉ p.map Prod.fst)
    (hk2 : k ∉ s2.map Prod.fst) :
    fieldStep st (k, v) = some ⟨st.data, p ++ (k, step1Val k v) :: s2,
      st.pii || step1Pii k v,
      ⟨st.cats.name || trigName k v, st.cats.email || trigEmail k v,
       st.cats.address || trigAddress k v, st.cats.device || trigDevice k v⟩⟩ := by
  obtain ⟨d, red, pi, cn, ce, ca, cd⟩ := st
  simp only at h1
  subst h1
  cases v with
  | str s =>
      by_cases hb : isBlank s = true
      · simp [fieldStep, step1Val, step1ValS, step1Pii, trigName, trigEmail, trigAddress,
          trigDevice, hb]
      · by_cases h1p : phoneCond k s = true
        · simp [fieldStep, step1Val, step1ValS, step1Pii, trigName, trigEmail, trigAddress,
            trigDevice, hb, h1p, updateField_append _ _ _ _ _ hk1 hk2]
        · by_cases h2a : aadharCond k s = true
          · simp [fieldStep, step1Val, step1ValS, step1Pii, trigName, trigEmail, trigAddress,
              trigDevice, hb, h1p, h2a, updateField_append _ _ _ _ _ hk1 hk2]
          · by_cases h3p : passportCond k s = true
            · have hne : s ≠ [] :=
                passportSearch_ne_nil s (by
                  simp only [passportCond, Bool.and_eq_true] at h3p
                  exact h3p.1)
              obtain ⟨c, cs, rfl⟩ : ∃ c cs, s = c :: cs := by
                cases s with
                | nil => exact absurd rfl hne
                | cons c cs => exact ⟨c, cs, rfl⟩
              simp [fieldStep, step1Val, step1ValS, step1Pii, trigName, trigEmail,
                trigAddress, trigDevice, hb, h1p, h2a, h3p, redact_passport,
                updateField_append _ _ _ _ _ hk1 hk2]
            · by_cases h4u : upiCond k s = true
              · have hlen : 2 ≤ (splitOnChar '@' s).length :=
                  splitOnChar_len_two '@' s (upiSearch_mem s (by
                    simp only [upiCond, Bool.and_eq_true] at h4u
                    exact h4u.1))
                obtain ⟨a, b, t, hsp⟩ :
                    ∃ a b t, splitOnChar '@' s = a :: b :: t := by
                  rcases hq : splitOnChar '@' s with _ | ⟨a, _ | ⟨b, t⟩⟩
                  · rw [hq] at hlen; simp at hlen
                  · rw [hq] at hlen; simp at hlen
                  · exact ⟨a, b, t, rfl⟩
                by_cases h5d : ((splitOnChar '.' b).length == 1) = true
                · simp [fieldStep, step1Val, step1ValS, step1Pii, upiInner, trigName,
                    trigEmail, trigAddress, trigDevice, hb, h1p, h2a, h3p, h4u, hsp, h5d,
                    updateField_append _ _ _ _ _ hk1 hk2]
                · simp [fieldStep, step1Val, step1ValS, step1Pii, upiInner, trigName,
                    trigEmail, trigAddress, trigDevice, hb, h1p, h2a, h3p, h4u, hsp, h5d]
              · by_cases h5n : nameCond k s = true
                · simp [fieldStep, step1Val, step1ValS, step1Pii, trigName, trigEmail,
                    trigAddress, trigDevice, hb, h1p, h2a, h3p, h4u, h5n]
                · by_cases h6e : emailCond k s = true
                  · simp [fieldStep, step1Val, step1ValS, step1Pii, trigName, trigEmail,
                      trigAddress, trigDevice, hb, h1p, h2a, h3p, h4u, h5n, h6e]
                  · by_cases h7a : addressCond k s = true
                    · simp [fieldStep, step1Val, step1ValS, step1Pii, trigName, trigEmail,
                        trigAddress, trigDevice, hb, h1p, h2a, h3p, h4u, h5n, h6e, h7a]
                    · by_cases h8d : deviceCond k = true
                      · simp [fieldStep, step1Val, step1ValS, step1Pii, trigName, trigEmail,
                          trigAddress, trigDevice, hb, h1p, h2a, h3p, h4u, h5n, h6e, h7a, h8d]
                      · simp [fieldStep, step1Val, step1ValS, step1Pii, trigName, trigEmail,
                          trigAddress, trigDevice, hb, h1p, h2a, h3p, h4u, h5n, h6e, h7a, h8d]
  | num n =>
      simp [fieldStep, step1Val, step1Pii, trigName, trigEmail, trigAddress, trigDevice]
  | bool b =>
      simp [fieldStep, step1Val, step1Pii, trigName, trigEmail, trigAddress, trigDevice]
  | null =>
      simp [fieldStep, step1Val, step1Pii, trigName, trigEmail, trigAddress, trigDevice]

/-! ## Totality and frame facts about the evaluator -/

theorem fieldStep_isSome (st : ScanState) (kv : String × Value) :
    (fieldStep st kv).isSome = true := by
  obtain ⟨k, v⟩ := kv
  cases v with
  | str s =>
      by_cases hb : isBlank s = true
      · simp [fieldStep, hb]
      · by_cases h1p : phoneCond k s = true
        · simp [fieldStep, hb, h1p]
        · by_cases h2a : aadharCond k s = true
          · simp [fieldStep, hb, h1p, h2a]
          · by_cases h3p : passportCond k s = true
            · have hne : s ≠ [] :=
                passportSearch_ne_nil s (by
                  simp only [passportCond, Bool.and_eq_true] at h3p
                  exact h3p.1)
              obtain ⟨c, cs, rfl⟩ : ∃ c cs, s = c :: cs := by
                cases s with
                | nil => exact absurd rfl hne
                | cons c cs => exact ⟨c, cs, rfl⟩
              simp [fieldStep, hb, h1p, h2a, h3p, redact_passport]
            · by_cases h4u : upiCond k s = true
              · have hlen : 2 ≤ (splitOnChar '@' s).length :=
                  splitOnChar_len_two '@' s (upiSearch_mem s (by
                    simp only [upiCond, Bool.and_eq_true] at h4u
                    exact h4u.1))
                obtain ⟨a, b, t, hsp⟩ :
                    ∃ a b t, splitOnChar '@' s = a :: b :: t := by
                  rcases hq : splitOnChar '@' s with _ | ⟨a, _ | ⟨b, t⟩⟩
                  · rw [hq] at hlen; simp at hlen
                  · rw [hq] at hlen; simp at hlen
                  · exact ⟨a, b, t, rfl⟩
                by_cases h5d : ((splitOnChar '.' b).length == 1) = true <;>
                  simp [fieldStep, hb, h1p, h2a, h3p, h4u, hsp, h5d]
              · by_cases h5n : nameCond k s = true
                · simp [fieldStep, hb, h1p, h2a, h3p, h4u, h5n]
                · by_cases h6e : emailCond k s = true
                  · simp [fieldStep, hb, h1p, h2a, h3p, h4u, h5n, h6e]
                  · by_cases h7a : addressCond k s = true
                    · simp [fieldStep, hb, h1p, h2a, h3p, h4u, h5n, h6e, h7a]
                    · by_cases h8d : deviceCond k = true <;>
                        simp [fieldStep, hb, h1p, h2a, h3p, h4u, h5n, h6e, h7a, h8d]
  | num n => simp [fieldStep]
  | bool b => simp [fieldStep]
  | null => simp [fieldStep]

theorem scanFields_isSome : ∀ (s : List (String × Value)) (st : ScanState),
    (scanFields st s).isSome = true := by
  intro s
  induction s with
  | nil => intro st; simp [scanFields]
  | cons kv rest ih =>
      intro st
      cases hf : fieldStep st kv with
      | none =>
          have := fieldStep_isSome st kv
          rw [hf] at this
          simp at this
      | some st2 =>
          simp only [scanFields, hf]
          exact ih st2

theorem processRecord_isSome (r : Record) : (processRecord r).isSome = true := by
  unfold processRecord processState
  cases h : scanFields ⟨r, r, false, ⟨false, false, false, false⟩⟩ r with
  | none =>
      have := scanFields_isSome r ⟨r, r, false, ⟨false, false, false, false⟩⟩
      rw [h] at this
      simp at this
  | some st => simp

theorem fieldStep_data (st : ScanState) (kv : String × Value) (st2 : ScanState)
    (h : fieldStep st kv = some st2) : st2.data = st.data := by
  obtain ⟨k, v⟩ := kv
  cases v with
  | str s =>
      simp only [fieldStep] at h
      repeat' split at h
      all_goals first
        | exact Option.noConfusion h
        | (injection h with h2; subst h2; rfl)
  | num n => injection h with h2; subst h2; rfl
  | bool b => injection h with h2; subst h2; rfl
  | null => injection h with h2; subst h2; rfl

theorem scanFields_data : ∀ (s : List (String × Value)) (st st2 : ScanState),
    scanFields st s = some st2 → st2.data = st.data := by
  intro s
  induction s with
  | nil =>
      intro st st2 h
      simp only [scanFields, Option.some.injEq] at h
      rw [← h]
  | cons kv rest ih =>
      intro st st2 h
      cases hf : fieldStep st kv with
      | none =>
          simp only [scanFields, hf] at h
          exact Option.noConfusion h
      | some stm =>
          simp only [scanFields, hf] at h
          rw [ih stm st2 h, fieldStep_data st kv stm hf]

/-! ## The scan loop, characterized -/

theorem scanFields_eq : ∀ (s p : Record) (st : ScanState),
    ((p ++ s).map Prod.fst).Nodup →
    st.redacted = (p.map fun kv => (kv.1, step1Val kv.1 kv.2)) ++ s →
    scanFields st s = some ⟨st.data,
      (p ++ s).map fun kv => (kv.1, step1Val kv.1 kv.2),
      st.pii || s.any fun kv => step1Pii kv.1 kv.2,
      ⟨st.cats.name || s.any fun kv => trigName kv.1 kv.2,
       st.cats.email || s.any fun kv => trigEmail kv.1 kv.2,
       st.cats.address || s.any fun kv => trigAddress kv.1 kv.2,
       st.cats.device || s.any fun kv => trigDevice kv.1 kv.2⟩⟩ := by
  intro s
  induction s with
  | nil =>
      intro p st hnd hred
      obtain ⟨d, red, pi, cn, ce, ca, cd⟩ := st
      simp only at hred
      simp [scanFields, hred]
  | cons kv s2 ih =>
      intro p st hnd hred
      obtain ⟨k, v⟩ := kv
      have hksplit : (p.map Prod.fst ++ k :: s2.map Prod.fst).Nodup := by
        simpa using hnd
      have hk1 : k ∉ p.map Prod.fst := by
        rcases List.nodup_append.mp hksplit with ⟨_, _, hdisj⟩
        intro hmem
        exact hdisj hmem (List.mem_cons_self _ _)
      have hk2 : k ∉ s2.map Prod.fst := by
        rcases List.nodup_append.mp hksplit with ⟨_, hnd2, _⟩
        exact (List.nodup_cons.mp hnd2).1
      have hk1m : k ∉ (p.map fun kv => (kv.1, step1Val kv.1 kv.2)).map Prod.fst := by
        rwa [show ((p.map fun kv => (kv.1, step1Val kv.1 kv.2)).map Prod.fst)
            = p.map Prod.fst from by rw [List.map_map]; rfl]
      have hstep := fieldStep_shape st k v
        (p.map fun kv => (kv.1, step1Val kv.1 kv.2)) s2 hred hk1m hk2
      simp only [scanFields, hstep]
      have hnd2 : (((p ++ [(k, v)]) ++ s2).map Prod.fst).Nodup := by
        rw [List.append_assoc]
        simpa using hnd
      have hred2 :
          (⟨st.data, (p.map fun kv => (kv.1, step1Val kv.1 kv.2)) ++ (k, step1Val k v) :: s2,
            st.pii || step1Pii k v,
            ⟨st.cats.name || trigName k v, st.cats.email || trigEmail k v,
             st.cats.address || trigAddress k v,
             st.cats.device || trigDevice k v⟩⟩ : ScanState).redacted
          = ((p ++ [(k, v)]).map fun kv => (kv.1, step1Val kv.1 kv.2)) ++ s2 := by
        simp
      have := ih (p ++ [(k, v)]) _ hnd2 hred2
      rw [this]
      simp [List.append_assoc, Bool.or_assoc]

theorem processState_eq (r : Record) (hnd : keysNodup r) :
    processState r = some ⟨r, scanOut r, anyPii r, catsOf r⟩ := by
  unfold processState
  have := scanFields_eq r [] ⟨r, r, false, ⟨false, false, false, false⟩⟩
    (by simpa [keysNodup] using hnd) (by simp)
  simpa [scanOut, anyPii, catsOf] using this

theorem processRecord_eq (r : Record) (hnd : keysNodup r) :
    processRecord r = some (postRecord r, anyPii r || escalates (catsOf r)) := by
  unfold processRecord
  rw [processState_eq r hnd]
  simp only [postRecord, escalates]

/-! ## Lookup characterization of the full pipeline -/

theorem redactCombField_lookup_ne (r : Record) (key k : String) (h : k ≠ key) :
    lookupVal (redactCombField r key) k = lookupVal r k := by
  unfold redactCombField
  cases hl : lookupVal r key with
  | none => rfl
  | some v =>
      cases v with
      | str s => exact lookupVal_updateField_ne r key k _ h
      | num n => rfl
      | bool b => rfl
      | null => rfl

theorem redactCombField_lookup_self (r : Record) (key : String) :
    lookupVal (redactCombField r key) key =
      match lookupVal r key with
      | some (Value.str s) => some (Value.str (combTransform key s))
      | w => w := by
  unfold redactCombField
  cases hl : lookupVal r key with
  | none => rw [hl]
  | some v =>
      cases v with
      | str s =>
          rw [lookupVal_updateField_self, hl]
          rfl
      | num n => rw [hl]
      | bool b => rw [hl]
      | null => rw [hl]

theorem keys_redactCombField (r : Record) (key : String) :
    (redactCombField r key).map Prod.fst = r.map Prod.fst := by
  unfold redactCombField
  cases lookupVal r key with
  | none => rfl
  | some v =>
      cases v with
      | str s => exact keys_updateField r key _
      | num n => rfl
      | bool b => rfl
      | null => rfl

theorem combStep_lookup_ne (b : Bool) (key : String) (r : Record) (k : String)
    (h : k ≠ key) : lookupVal (combStep b key r) k = lookupVal r k := by
  cases b with
  | false => rfl
  | true => exact redactCombField_lookup_ne r key k h

theorem combStep_lookup_self (b : Bool) (key : String) (r : Record) :
    lookupVal (combStep b key r) key =
      if b then
        match lookupVal r key with
        | some (Value.str s) => some (Value.str (combTransform key s))
        | w => w
      else lookupVal r key := by
  cases b with
  | false => rfl
  | true =>
      simp only [if_true]
      exact redactCombField_lookup_self r key

theorem keys_combStep (b : Bool) (key : String) (r : Record) :
    (combStep b key r).map Prod.fst = r.map Prod.fst := by
  cases b with
  | false => rfl
  | true => exact keys_redactCombField r key

theorem keys_scanOut (r : Record) : (scanOut r).map Prod.fst = r.map Prod.fst := by
  unfold scanOut
  rw [List.map_map]
  rfl

theorem keys_postRecord (r : Record) : (postRecord r).map Prod.fst = r.map Prod.fst := by
  unfold postRecord
  rw [keys_combStep, keys_combStep, keys_combStep, keys_combStep, keys_combStep,
    keys_scanOut]

theorem lookupVal_scanOut (r : Record) (k : String) :
    lookupVal (scanOut r) k = (lookupVal r k).map (step1Val k) := by
  unfold scanOut
  exact lookupVal_map_keyed step1Val r k

theorem combSelected_name (c : Cats) : combSelected c "name" = (escalates c && c.name) := by
  simp [combSelected]

theorem combSelected_email (c : Cats) :
    combSelected c "email" = (escalates c && c.email) := by
  simp [combSelected]

theorem combSelected_address (c : Cats) :
    combSelected c "address" = (escalates c && c.address) := by
  simp [combSelected]

theorem combSelected_ip (c : Cats) :
    combSelected c "ip_address" = (escalates c && c.device) := by
  simp [combSelected]

theorem combSelected_dev (c : Cats) :
    combSelected c "device_id" = (escalates c && c.device) := by
  simp [combSelected]

theorem combSelected_other (c : Cats) (k : String) (h1 : k ≠ "name") (h2 : k ≠ "email")
    (h3 : k ≠ "address") (h4 : k ≠ "ip_address") (h5 : k ≠ "device_id") :
    combSelected c k = false := by
  have e1 : (k == "name") = false := by simp [beq_eq_false_iff_ne, h1]
  have e2 : (k == "email") = false := by simp [beq_eq_false_iff_ne, h2]
  have e3 : (k == "address") = false := by simp [beq_eq_false_iff_ne, h3]
  have e4 : (k == "ip_address") = false := by simp [beq_eq_false_iff_ne, h4]
  have e5 : (k == "device_id") = false := by simp [beq_eq_false_iff_ne, h5]
  simp [combSelected, e1, e2, e3, e4, e5]

theorem lookup_if_comb (L : Option Value) (k : String) (B : Bool) :
    (if B then
       match L.map (step1Val k) with
       | some (Value.str s) => some (Value.str (combTransform k s))
       | w => w
     else L.map (step1Val k)) =
      L.map fun v =>
        if B then
          match step1Val k v with
          | Value.str s => Value.str (combTransform k s)
          | w => w
        else step1Val k v := by
  cases B with
  | false => cases L <;> rfl
  | true =>
      cases L with
      | none => rfl
      | some v => cases v <;> simp [step1Val]

theorem postRecord_lookup (r : Record) (k : String) :
    lookupVal (postRecord r) k = (lookupVal r k).map (finalVal (catsOf r) k) := by
  by_cases h1 : k = "name"
  · subst h1
    unfold postRecord
    rw [combStep_lookup_ne _ _ _ _ (by decide : ("name" : String) ≠ "device_id"),
      combStep_lookup_ne _ _ _ _ (by decide : ("name" : String) ≠ "ip_address"),
      combStep_lookup_ne _ _ _ _ (by decide : ("name" : String) ≠ "address"),
      combStep_lookup_ne _ _ _ _ (by decide : ("name" : String) ≠ "email"),
      combStep_lookup_self, lookupVal_scanOut, ← combSelected_name (catsOf r)]
    rw [lookup_if_comb]
    rfl
  · by_cases h2 : k = "email"
    · subst h2
      unfold postRecord
      rw [combStep_lookup_ne _ _ _ _ (by decide : ("email" : String) ≠ "device_id"),
        combStep_lookup_ne _ _ _ _ (by decide : ("email" : String) ≠ "ip_address"),
        combStep_lookup_ne _ _ _ _ (by decide : ("email" : String) ≠ "address"),
        combStep_lookup_self,
        combStep_lookup_ne _ _ _ _ (by decide : ("email" : String) ≠ "name"),
        lookupVal_scanOut, ← combSelected_email (catsOf r)]
      rw [lookup_if_comb]
      rfl
    · by_cases h3 : k = "address"
      · subst h3
        unfold postRecord
        rw [combStep_lookup_ne _ _ _ _ (by decide : ("address" : String) ≠ "device_id"),
          combStep_lookup_ne _ _ _ _ (by decide : ("address" : String) ≠ "ip_address"),
          combStep_lookup_self,
          combStep_lookup_ne _ _ _ _ (by decide : ("address" : String) ≠ "email"),
          combStep_lookup_ne _ _ _ _ (by decide : ("address" : String) ≠ "name"),
          lookupVal_scanOut, ← combSelected_address (catsOf r)]
        rw [lookup_if_comb]
        rfl
      · by_cases h4 : k = "ip_address"
        · subst h4
          unfold postRecord
          rw [combStep_lookup_ne _ _ _ _ (by decide : ("ip_address" : String) ≠ "device_id"),
            combStep_lookup_self,
            combStep_lookup_ne _ _ _ _ (by decide : ("ip_address" : String) ≠ "address"),
            combStep_lookup_ne _ _ _ _ (by decide : ("ip_address" : String) ≠ "email"),
            combStep_lookup_ne _ _ _ _ (by decide : ("ip_address" : String) ≠ "name"),
            lookupVal_scanOut, ← combSelected_ip (catsOf r)]
          rw [lookup_if_comb]
          rfl
        · by_cases h5 : k = "device_id"
          · subst h5
            unfold postRecord
            rw [combStep_lookup_self,
              combStep_lookup_ne _ _ _ _ (by decide : ("device_id" : String) ≠ "ip_address"),
              combStep_lookup_ne _ _ _ _ (by decide : ("device_id" : String) ≠ "address"),
              combStep_lookup_ne _ _ _ _ (by decide : ("device_id" : String) ≠ "email"),
              combStep_lookup_ne _ _ _ _ (by decide : ("device_id" : String) ≠ "name"),
              lookupVal_scanOut, ← combSelected_dev (catsOf r)]
            rw [lookup_if_comb]
            rfl
          · unfold postRecord
            rw [combStep_lookup_ne _ _ _ _ h5, combStep_lookup_ne _ _ _ _ h4,
              combStep_lookup_ne _ _ _ _ h3, combStep_lookup_ne _ _ _ _ h2,
              combStep_lookup_ne _ _ _ _ h1, lookupVal_scanOut]
            have hsel := combSelected_other (catsOf r) k h1 h2 h3 h4 h5
            cases hL : lookupVal r k with
            | none => rfl
            | some v => simp [finalVal, hsel]

/-! ## Step-1 behavior on combinatorial keys and on non-firing fields -/

theorem standalone_conds_comb (k : String)
    (hk : k = "name" ∨ k = "email" ∨ k = "address" ∨ k = "ip_address" ∨ k = "device_id")
    (s : List Char) :
    phoneCond k s = false ∧ aadharCond k s = false ∧ passportCond k s = false ∧
      upiCond k s = false := by
  rcases hk with rfl | rfl | rfl | rfl | rfl <;>
    exact ⟨by simp [phoneCond], by simp [aadharCond], by simp [passportCond],
      by simp [upiCond]⟩

theorem step1ValS_comb (k : String)
    (hk : k = "name" ∨ k = "email" ∨ k = "address" ∨ k = "ip_address" ∨ k = "device_id")
    (s : List Char) : step1ValS k s = s := by
  obtain ⟨hp, ha, hps, hu⟩ := standalone_conds_comb k hk s
  unfold step1ValS
  rw [hp, ha, hps, hu]
  simp

theorem step1Val_comb (k : String)
    (hk : k = "name" ∨ k = "email" ∨ k = "address" ∨ k = "ip_address" ∨ k = "device_id")
    (v : Value) : step1Val k v = v := by
  cases v <;> simp [step1Val, step1ValS_comb k hk]

theorem step1Val_of_not_pii (k : String) (v : Value) (h : step1Pii k v = false) :
    step1Val k v = v := by
  cases v with
  | str s =>
      simp only [step1Pii] at h
      simp only [step1Val, Value.str.injEq]
      by_cases hb : isBlank s = true
      · simp [step1ValS, hb]
      · rw [Bool.not_eq_true] at hb
        rw [hb] at h
        simp only [Bool.not_false, Bool.true_and, Bool.or_eq_false_iff] at h
        obtain ⟨⟨⟨hp, ha⟩, hps⟩, hu⟩ := h
        unfold step1ValS
        rw [hb, hp, ha, hps]
        simp only [Bool.false_eq_true, if_false]
        by_cases hup : upiCond k s = true
        · rw [hup] at hu
          simp only [Bool.true_and] at hu
          rw [hup]
          simp only [if_true]
          unfold upiInner at hu
          rcases hsp : splitOnChar '@' s with _ | ⟨a, _ | ⟨b, t⟩⟩
          all_goals rw [hsp] at hu
          all_goals simp_all
        · rw [Bool.not_eq_true] at hup
          rw [hup]
          simp
  | num n => rfl
  | bool b => rfl
  | null => rfl

/-! ## Redaction outputs never re-match the standalone trigger patterns -/

theorem matchSeq_append_left (ps qs : List (Char → Bool)) (l : List Char) :
    ∀ i, matchSeq (ps ++ qs) l i = true → matchSeq ps l i = true := by
  induction ps with
  | nil => intro i _; rfl
  | cons p ps2 ih =>
      intro i hm
      simp only [List.cons_append, matchSeq, Bool.and_eq_true] at hm ⊢
      exact ⟨hm.1, ih (i + 1) hm.2⟩

theorem matchSeq_le2 (ps : List (Char → Bool)) (l : List Char) (i : Nat)
    (hne : ps ≠ []) (hm : matchSeq ps l i = true) : i + ps.length ≤ l.length := by
  cases ps with
  | nil => exact absurd rfl hne
  | cons p ps2 =>
      have := matchSeq_le ps2 p l i hm
      simp only [List.length_cons]
      omega

theorem redact_phone_len (s : List Char) (h : 10 ≤ s.length) :
    (redact_phone s).length = 10 := by
  unfold redact_phone
  simp only [List.length_append, List.length_take, List.length_drop,
    List.length_replicate]
  omega

theorem phoneSearch_redact_phone (s : List Char) (h : phoneSearch s = true) :
    phoneSearch (redact_phone s) = false := by
  have h10 := phoneSearch_len s h
  have hlen := redact_phone_len s h10
  cases hq : phoneSearch (redact_phone s) with
  | false => rfl
  | true =>
      exfalso
      simp only [phoneSearch, List.any_eq_true, List.mem_range] at hq
      obtain ⟨i, hi, htok⟩ := hq
      simp only [tokenSearchAt, Bool.and_eq_true] at htok
      have hm := htok.1.2
      have hle : i + 10 ≤ (redact_phone s).length := by
        have := matchSeq_le2 (List.replicate 10 isDigitB) (redact_phone s) i (by simp) hm
        simpa using this
      have hi0 : i = 0 := by rw [hlen] at hle; omega
      subst hi0
      have hd := matchSeq_digits 10 _ 0 hm 2 (by omega)
      have hx : (redact_phone s).getD 2 ' ' = 'X' := by
        unfold redact_phone
        have ht2 : (s.take 2).length = 2 := by
          simp only [List.length_take]
          omega
        rw [List.getD_append _ _ _ _ (by
          simp only [List.length_append, List.length_take, List.length_replicate]
          omega)]
        rw [List.getD_append_right _ _ _ _ (by omega)]
        rw [ht2]
        rfl
      rw [hx] at hd
      exact absurd hd (by decide)

theorem aadharPat_len (b1 b2 : Bool) :
    12 ≤ (aadharPat b1 b2).length := by
  cases b1 <;> cases b2 <;> simp [aadharPat, optWs]

theorem redact_aadhar_len (s : List Char) : (redact_aadhar s).length ≤ 12 := by
  unfold redact_aadhar
  simp only [List.length_append, List.length_drop, List.length_replicate]
  omega

theorem aadharSearch_redact_aadhar (s : List Char) :
    aadharSearch (redact_aadhar s) = false := by
  have hlen := redact_aadhar_len s
  cases hq : aadharSearch (redact_aadhar s) with
  | false => rfl
  | true =>
      exfalso
      simp only [aadharSearch, List.any_eq_true, List.mem_range] at hq
      obtain ⟨i, hi, bb, hbb, htok⟩ := hq
      simp only [tokenSearchAt, Bool.and_eq_true] at htok
      have hm := htok.1.2
      have hple := aadharPat_len bb.1 bb.2
      have hle : i + (aadharPat bb.1 bb.2).length ≤ (redact_aadhar s).length :=
        matchSeq_le2 _ _ _ (by
          intro hnil
          rw [hnil] at hple
          simp at hple) hm
      have hi0 : i = 0 := by omega
      subst hi0
      have hm4 : matchSeq (List.replicate 4 isDigitB) (redact_aadhar s) 0 = true := by
        apply matchSeq_append_left _ _ _ 0
        have : aadharPat bb.1 bb.2
            = List.replicate 4 isDigitB ++
              (optWs bb.1 ++ List.replicate 4 isDigitB ++ optWs bb.2 ++
                List.replicate 4 isDigitB) := by
          simp [aadharPat, List.append_assoc]
        rw [← this]
        exact hm
      have hd := matchSeq_digits 4 _ 0 hm4 0 (by omega)
      have hx : (redact_aadhar s).getD 0 ' ' = 'X' := by
        unfold redact_aadhar
        rw [List.getD_append _ _ _ _ (by simp)]
        rfl
      rw [show (0 : Nat) + 0 = 0 from rfl, hx] at hd
      exact absurd hd (by decide)

theorem passportPat_len (b : Bool) : 8 ≤ (passportPat b).length := by
  cases b <;> simp [passportPat, optWs]

theorem passportSearch_redact_passport (s w : List Char)
    (hw : redact_passport s = some w) : passportSearch w = false := by
  obtain ⟨c, cs, rfl⟩ : ∃ c cs, s = c :: cs := by
    cases s with
    | nil => simp [redact_passport] at hw
    | cons c cs => exact ⟨c, cs, rfl⟩
  simp only [redact_passport, Option.some.injEq] at hw
  have hwlen : w.length = 8 := by
    rw [← hw]
    simp
  cases hq : passportSearch w with
  | false => rfl
  | true =>
      exfalso
      simp only [passportSearch, List.any_eq_true, List.mem_range] at hq
      obtain ⟨i, hi, b, hb, htok⟩ := hq
      simp only [tokenSearchAt, Bool.and_eq_true] at htok
      have hm := htok.1.2
      have hple := passportPat_len b
      have hle : i + (passportPat b).length ≤ w.length :=
        matchSeq_le2 _ _ _ (by
          intro hnil
          rw [hnil] at hple
          simp at hple) hm
      have hi0 : i = 0 := by omega
      subst hi0
      have hm3 : matchSeq [isPassLetterB, isDigit19, isDigitB] w 0 = true := by
        apply matchSeq_append_left _ _ _ 0
        have : passportPat b
            = [isPassLetterB, isDigit19, isDigitB] ++
              (optWs b ++ List.replicate 4 isDigitB ++ [isDigit19]) := by
          simp [passportPat, List.append_assoc]
        rw [← this]
        exact hm
      obtain ⟨_, _, hrest⟩ := matchSeq_head _ _ _ _ hm3
      obtain ⟨_, hd19, _⟩ := matchSeq_head _ _ _ _ hrest
      have hx : w.getD 1 ' ' = 'X' := by
        rw [← hw]
        rfl
      rw [hx] at hd19
      exact absurd hd19 (by decide)

/-! ## Idempotence of the combinatorial redaction transforms -/

theorem splitWsAux_append_token (t : List Char) :
    ∀ (l acc : List Char), t.all (fun c => !isSpaceB c) = true →
      splitWsAux (t ++ l) acc = splitWsAux l (t.reverse ++ acc) := by
  induction t with
  | nil => intro l acc _; simp
  | cons c cs ih =>
      intro l acc hall
      simp only [List.all_cons, Bool.and_eq_true] at hall
      have hc : isSpaceB c = false := by simpa using hall.1
      simp only [List.cons_append, splitWsAux, hc, Bool.false_eq_true, if_false]
      show splitWsAux (cs ++ l) (c :: acc) = _
      rw [ih l (c :: acc) hall.2]
      simp [List.append_assoc]

theorem splitWsAux_tokens (l : List Char) :
    ∀ acc, acc.all (fun c => !isSpaceB c) = true →
      ∀ t ∈ splitWsAux l acc, t ≠ [] ∧ t.all (fun c => !isSpaceB c) = true := by
  induction l with
  | nil =>
      intro acc hacc t ht
      simp only [splitWsAux] at ht
      by_cases he : acc.isEmpty = true
      · simp [he] at ht
      · simp only [he, Bool.false_eq_true, if_false, List.mem_singleton] at ht
        subst ht
        refine ⟨?_, by simpa [List.all_reverse] using hacc⟩
        simp only [ne_eq, List.reverse_eq_nil_iff]
        intro hnil
        rw [hnil] at he
        simp at he
  | cons c cs ih =>
      intro acc hacc t ht
      by_cases hc : isSpaceB c = true
      · by_cases he : acc.isEmpty = true
        · simp only [splitWsAux, hc, if_true, he] at ht
          exact ih [] (by simp) t ht
        · simp only [splitWsAux, hc, if_true, he, Bool.false_eq_true, if_false,
            List.mem_cons] at ht
          rcases ht with rfl | ht
          · refine ⟨?_, by simpa [List.all_reverse] using hacc⟩
            simp only [ne_eq, List.reverse_eq_nil_iff]
            intro hnil
            rw [hnil] at he
            simp at he
          · exact ih [] (by simp) t ht
      · have hcF : isSpaceB c = false := by simpa using hc
        simp only [splitWsAux, hcF, Bool.false_eq_true, if_false] at ht
        refine ih (c :: acc) ?_ t ht
        simp only [List.all_cons, Bool.and_eq_true]
        exact ⟨by simp [hcF], hacc⟩

theorem pySplitWs_tokens (l : List Char) :
    ∀ t ∈ pySplitWs l, t ≠ [] ∧ t.all (fun c => !isSpaceB c) = true :=
  splitWsAux_tokens l [] (by simp)

theorem pySplitWs_pyJoinSp (toks : List (List Char))
    (h : ∀ t ∈ toks, t ≠ [] ∧ t.all (fun c => !isSpaceB c) = true) :
    pySplitWs (pyJoinSp toks) = toks := by
  induction toks with
  | nil => rfl
  | cons t ts ih =>
      obtain ⟨hne, hall⟩ := h t (by simp)
      have hemp : t.reverse.isEmpty = false := by
        simp only [List.isEmpty_eq_false_iff_exists_mem]
        cases t with
        | nil => exact absurd rfl hne
        | cons c cs => exact ⟨c, by simp⟩
      cases ts with
      | nil =>
          simp only [pyJoinSp]
          unfold pySplitWs
          rw [show splitWsAux t [] = splitWsAux (t ++ []) [] from by rw [List.append_nil],
            splitWsAux_append_token t [] [] hall]
          simp only [splitWsAux, List.append_nil, hemp, Bool.false_eq_true, if_false,
            List.reverse_reverse]
      | cons t2 ts2 =>
          simp only [pyJoinSp]
          unfold pySplitWs
          rw [splitWsAux_append_token t _ [] hall]
          simp only [splitWsAux, show isSpaceB ' ' = true from rfl, if_true,
            List.append_nil, hemp, Bool.false_eq_true, if_false, List.reverse_reverse]
          have := ih fun t3 ht3 => h t3 (List.mem_cons_of_mem _ ht3)
          unfold pySplitWs at this
          rw [this]

theorem filterMap_id_on {α : Type} (g : α → Option α) :
    ∀ (l : List α), (∀ a ∈ l, g a = some a) → l.filterMap g = l := by
  intro l
  induction l with
  | nil => intro _; rfl
  | cons a rest ih =>
      intro h
      simp only [List.filterMap_cons, h a (by simp)]
      rw [ih fun b hb => h b (List.mem_cons_of_mem _ hb)]

theorem redact_name_idem (s : List Char) :
    redact_name (redact_name s) = redact_name s := by
  have hout : ∀ t ∈ (pySplitWs s).filterMap (fun p =>
      match p with
      | [] => none
      | c :: cs => some (c :: List.replicate cs.length 'X')),
      (∃ c n, t = c :: List.replicate n 'X' ∧ isSpaceB c = false) := by
    intro t ht
    obtain ⟨p, hp, hg⟩ := List.mem_filterMap.mp ht
    cases p with
    | nil => simp at hg
    | cons c cs =>
        simp only [Option.some.injEq] at hg
        obtain ⟨_, hpall⟩ := pySplitWs_tokens s _ hp
        simp only [List.all_cons, Bool.and_eq_true] at hpall
        exact ⟨c, cs.length, hg.symm, by simpa using hpall.1⟩
  have htoks : ∀ t ∈ (pySplitWs s).filterMap (fun p =>
      match p with
      | [] => none
      | c :: cs => some (c :: List.replicate cs.length 'X')),
      t ≠ [] ∧ t.all (fun c => !isSpaceB c) = true := by
    intro t ht
    obtain ⟨c, n, rfl, hc⟩ := hout t ht
    constructor
    · simp
    · simp only [List.all_cons, Bool.and_eq_true]
      refine ⟨by simp [hc], ?_⟩
      have hX : isSpaceB 'X' = false := by decide
      simp [hX]
  unfold redact_name
  rw [pySplitWs_pyJoinSp _ htoks]
  rw [filterMap_id_on _ _ (by
    intro t ht
    obtain ⟨c, n, rfl, _⟩ := hout t ht
    simp)]

theorem head_dropWhile_false {p : Char → Bool} :
    ∀ (l : List Char) (hd : Char) (rest : List Char),
      l.dropWhile p = hd :: rest → p hd = false := by
  intro l
  induction l with
  | nil => intro hd rest h; simp [List.dropWhile] at h
  | cons c cs ih =>
      intro hd rest h
      by_cases hc : p c = true
      · rw [List.dropWhile_cons_of_pos hc] at h
        exact ih hd rest h
      · rw [List.dropWhile_cons_of_neg hc] at h
        injection h with h1 _
        rw [← h1]
        simpa using hc

theorem takeWhile_at_append (a dom : List Char)
    (ha : ∀ c ∈ a, (c == '@') = false) :
    (a ++ '@' :: dom).takeWhile (fun c => !(c == '@')) = a := by
  induction a with
  | nil => simp [List.takeWhile_cons]
  | cons c a2 ih =>
      have hc := ha c (by simp)
      simp only [List.cons_append]
      rw [List.takeWhile_cons_of_pos (by simp [hc])]
      rw [ih fun x hx => ha x (List.mem_cons_of_mem _ hx)]

theorem dropWhile_at_append (a dom : List Char)
    (ha : ∀ c ∈ a, (c == '@') = false) :
    (a ++ '@' :: dom).dropWhile (fun c => !(c == '@')) = '@' :: dom := by
  induction a with
  | nil => simp [List.dropWhile_cons]
  | cons c a2 ih =>
      have hc := ha c (by simp)
      simp only [List.cons_append]
      rw [List.dropWhile_cons_of_pos (by simp [hc])]
      exact ih fun x hx => ha x (List.mem_cons_of_mem _ hx)

theorem redact_email_append (a rest : List Char)
    (ha : ∀ c ∈ a, (c == '@') = false) :
    redact_email (a ++ '@' :: rest) = emailMask a ++ '@' :: rest := by
  unfold redact_email
  simp only [dropWhile_at_append a rest ha, takeWhile_at_append a rest ha]

theorem emailMask_mem (a : List Char) (x : Char) (hx : x ∈ emailMask a) :
    x ∈ a ∨ x = 'X' := by
  unfold emailMask at hx
  by_cases h2 : 2 < a.length
  · rw [if_pos h2] at hx
    cases a with
    | nil => simp at h2
    | cons c cs =>
        rcases List.mem_cons.mp hx with rfl | hx2
        · exact Or.inl (by simp)
        · rcases List.mem_append.mp hx2 with hx3 | hx3
          · exact Or.inr (List.eq_of_mem_replicate hx3)
          · rw [List.mem_singleton.mp hx3]
            exact Or.inl (List.getLastD_mem_cons cs c)
  · rw [if_neg h2] at hx
    exact Or.inr (List.eq_of_mem_replicate hx)

theorem emailMask_idem (a : List Char) : emailMask (emailMask a) = emailMask a := by
  by_cases h2 : 2 < a.length
  · obtain ⟨c, cs, rfl⟩ : ∃ c cs, a = c :: cs := by
      cases a with
      | nil => simp at h2
      | cons c cs => exact ⟨c, cs, rfl⟩
    have hstep : emailMask (c :: cs) = c :: (List.replicate 3 'X' ++ [List.getLastD cs c]) := by
      unfold emailMask
      rw [if_pos h2]
    rw [hstep]
    unfold emailMask
    rw [if_pos (by simp)]
    simp [List.getLastD_concat]
  · have hstep : emailMask a = List.replicate a.length 'X' := by
      unfold emailMask
      rw [if_neg h2]
    rw [hstep]
    unfold emailMask
    rw [if_neg (by simpa using h2)]
    simp

theorem redact_email_idem (s : List Char) :
    redact_email (redact_email s) = redact_email s := by
  cases hdw : s.dropWhile (fun c => !(c == '@')) with
  | nil =>
      have h1 : redact_email s = emailSentinel := by
        unfold redact_email
        rw [hdw]
      rw [h1]
      decide
  | cons hd rest =>
      have hhd : hd = '@' := by
        have := head_dropWhile_false s hd rest hdw
        simpa using this
      subst hhd
      have hlp : ∀ c ∈ s.takeWhile (fun c => !(c == '@')), (c == '@') = false := by
        intro c hc
        simpa using List.mem_takeWhile_imp hc
      have hs : s = (s.takeWhile fun c => !(c == '@')) ++ '@' :: rest := by
        conv_lhs => rw [← List.takeWhile_append_dropWhile (p := fun c => !(c == '@'))
          (l := s)]
        rw [hdw]
      rw [hs, redact_email_append _ rest hlp]
      have hmask : ∀ x ∈ emailMask (s.takeWhile fun c => !(c == '@')),
          (x == '@') = false := by
        intro x hx
        rcases emailMask_mem _ x hx with hx2 | rfl
        · exact hlp x hx2
        · decide
      rw [redact_email_append _ rest hmask, emailMask_idem]

/-! ## Remaining helper lemmas for the claims -/

theorem fieldStep_keys (st : ScanState) (kv : String × Value) (st2 : ScanState)
    (h : fieldStep st kv = some st2) :
    st2.redacted.map Prod.fst = st.redacted.map Prod.fst := by
  obtain ⟨k, v⟩ := kv
  cases v with
  | str s =>
      simp only [fieldStep] at h
      repeat' split at h
      all_goals first
        | exact Option.noConfusion h
        | (injection h with h2; subst h2; simp [keys_updateField])
  | num n => injection h with h2; subst h2; rfl
  | bool b => injection h with h2; subst h2; rfl
  | null => injection h with h2; subst h2; rfl

theorem scanFields_keys : ∀ (s : List (String × Value)) (st st2 : ScanState),
    scanFields st s = some st2 →
      st2.redacted.map Prod.fst = st.redacted.map Prod.fst := by
  intro s
  induction s with
  | nil =>
      intro st st2 h
      simp only [scanFields, Option.some.injEq] at h
      rw [← h]
  | cons kv rest ih =>
      intro st st2 h
      cases hf : fieldStep st kv with
      | none =>
          simp only [scanFields, hf] at h
          exact Option.noConfusion h
      | some stm =>
          simp only [scanFields, hf] at h
          rw [ih stm st2 h, fieldStep_keys st kv stm hf]

theorem scanOut_id_of_no_pii (r : Record) (hs : anyPii r = false) : scanOut r = r := by
  unfold scanOut
  have hall : ∀ kv ∈ r, ((kv.1, step1Val kv.1 kv.2) : String × Value) = kv := by
    intro kv hkv
    have hp : step1Pii kv.1 kv.2 = false := by
      unfold anyPii at hs
      rw [List.any_eq_false] at hs
      simpa using hs kv hkv
    rw [step1Val_of_not_pii _ _ hp]
  calc r.map (fun kv => (kv.1, step1Val kv.1 kv.2)) = r.map id :=
        List.map_congr_left hall
    _ = r := List.map_id r

theorem anyPii_of_mem (r : Record) (k : String) (v : Value) (hm : (k, v) ∈ r)
    (hp : step1Pii k v = true) : anyPii r = true := by
  unfold anyPii
  rw [List.any_eq_true]
  exact ⟨(k, v), hm, hp⟩

theorem combSelected_keys (c : Cats) (k : String) (h : combSelected c k = true) :
    k = "name" ∨ k = "email" ∨ k = "address" ∨ k = "ip_address" ∨ k = "device_id" := by
  by_contra hno
  push_neg at hno
  obtain ⟨n1, n2, n3, n4, n5⟩ := hno
  rw [combSelected_other c k n1 n2 n3 n4 n5] at h
  exact Bool.noConfusion h

theorem step1ValS_phone (k : String) (hk : k = "phone" ∨ k = "contact")
    (v : List Char) (hm : phoneSearch v = true) : step1ValS k v = redact_phone v := by
  have hnb := phoneSearch_not_blank v hm
  have hpc : phoneCond k v = true := by
    rcases hk with rfl | rfl <;> simp [phoneCond, hm]
  unfold step1ValS
  simp [hnb, hpc]

theorem step1Pii_phone (k : String) (hk : k = "phone" ∨ k = "contact")
    (v : List Char) (hm : phoneSearch v = true) :
    step1Pii k (Value.str v) = true := by
  have hnb := phoneSearch_not_blank v hm
  have hpc : phoneCond k v = true := by
    rcases hk with rfl | rfl <;> simp [phoneCond, hm]
  simp [step1Pii, hnb, hpc]

theorem step1ValS_upi (v : List Char) :
    step1ValS "upi_id" v = if (upiSearch v && upiInner v) = true then upiSentinel
      else v := by
  have hp : phoneCond "upi_id" v = false := by simp [phoneCond]
  have ha : aadharCond "upi_id" v = false := by simp [aadharCond]
  have hps : passportCond "upi_id" v = false := by simp [passportCond]
  by_cases hu : upiSearch v = true
  · have hnb : isBlank v = false := upiSearch_not_blank v hu
    have hupi : upiCond "upi_id" v = true := by simp [upiCond, hu]
    have hlen : 2 ≤ (splitOnChar '@' v).length :=
      splitOnChar_len_two '@' v (upiSearch_mem v hu)
    obtain ⟨a, b, t, hsp⟩ : ∃ a b t, splitOnChar '@' v = a :: b :: t := by
      rcases hq : splitOnChar '@' v with _ | ⟨a, _ | ⟨b, t⟩⟩
      · rw [hq] at hlen; simp at hlen
      · rw [hq] at hlen; simp at hlen
      · exact ⟨a, b, t, rfl⟩
    have hin : upiInner v = ((splitOnChar '.' b).length == 1) := by
      unfold upiInner
      rw [hsp]
    by_cases hd : ((splitOnChar '.' b).length == 1) = true
    · have hcond : (upiSearch v && upiInner v) = true := by
        rw [hu, hin, hd]
        rfl
      rw [if_pos hcond]
      unfold step1ValS
      simp [hnb, hp, ha, hps, hupi, hsp, hd]
    · have hdF : ((splitOnChar '.' b).length == 1) = false := by simpa using hd
      have hcond : (upiSearch v && upiInner v) = false := by
        rw [hin, hdF]
        simp
      rw [if_neg (by simp [hcond])]
      unfold step1ValS
      simp [hnb, hp, ha, hps, hupi, hsp, hdF]
  · have huF : upiSearch v = false := by simpa using hu
    have hupi : upiCond "upi_id" v = false := by simp [upiCond, huF]
    have hcond : (upiSearch v && upiInner v) = false := by simp [huF]
    rw [if_neg (by simp [hcond])]
    unfold step1ValS
    by_cases hb : isBlank v = true
    · simp [hb]
    · have hbF : isBlank v = false := by simpa using hb
      simp [hbF, hp, ha, hps, hupi]

theorem step1Pii_upi (v : List Char) :
    step1Pii "upi_id" (Value.str v) = (upiSearch v && upiInner v) := by
  have hp : phoneCond "upi_id" v = false := by simp [phoneCond]
  have ha : aadharCond "upi_id" v = false := by simp [aadharCond]
  have hps : passportCond "upi_id" v = false := by simp [passportCond]
  by_cases hu : upiSearch v = true
  · have hnb : isBlank v = false := upiSearch_not_blank v hu
    have hupi : upiCond "upi_id" v = true := by simp [upiCond, hu]
    simp [step1Pii, hnb, hp, ha, hps, hupi, hu]
  · have huF : upiSearch v = false := by simpa using hu
    have hupi : upiCond "upi_id" v = false := by simp [upiCond, huF]
    simp [step1Pii, hp, ha, hps, hupi, huF]

theorem finalVal_comb_str (c : Cats) (k : String) (hsel : combSelected c k = true)
    (hk : k = "name" ∨ k = "email" ∨ k = "address" ∨ k = "ip_address" ∨ k = "device_id")
    (s : List Char) : finalVal c k (Value.str s) = Value.str (combTransform k s) := by
  unfold finalVal
  rw [hsel, if_pos rfl, step1Val_comb k hk]

theorem finalVal_nonstr (c : Cats) (k : String) (v : Value)
    (hv : ∀ s, v ≠ Value.str s) : finalVal c k v = v := by
  cases v with
  | str s => exact absurd rfl (hv s)
  | num n => simp [finalVal, step1Val]
  | bool b => simp [finalVal, step1Val]
  | null => simp [finalVal, step1Val]

/-! ## The claims -/

/-- C3: for every input record, the record returned by `process_record` has exactly
the same key sequence as the input; no key is added or removed, only values
change. -/
theorem C3_keys_preserved (r out : Record) (pii : Bool)
    (h : processRecord r = some (out, pii)) :
    out.map Prod.fst = r.map Prod.fst := by
  unfold processRecord at h
  cases hps : processState r with
  | none => rw [hps] at h; exact Option.noConfusion h
  | some st =>
      rw [hps] at h
      simp only [Option.some.injEq, Prod.mk.injEq] at h
      obtain ⟨hout, _⟩ := h
      rw [← hout]
      rw [keys_combStep, keys_combStep, keys_combStep, keys_combStep, keys_combStep]
      unfold processState at hps
      have := scanFields_keys r _ st hps
      simpa using this

theorem C3_keys_preserved_witness :
    ([("name", vstr "JXXX DXX"), ("email", vstr "X@b.co")] : Record).map Prod.fst
      = ([("name", vstr "John Doe"), ("email", vstr "a@b.co")] : Record).map Prod.fst :=
  C3_keys_preserved [("name", vstr "John Doe"), ("email", vstr "a@b.co")]
    [("name", vstr "JXXX DXX"), ("email", vstr "X@b.co")] true (by decide)

/-- C9: one evaluation is pure: the input record is threaded through the scan
unchanged (every write goes to the copy `redacted_data`), and evaluation is
deterministic — equal inputs give equal results. -/
theorem C9_pure (r : Record) (st : ScanState) (h : processState r = some st) :
    st.data = r ∧ ∀ r2 : Record, r2 = r → processRecord r2 = processRecord r := by
  refine ⟨?_, fun r2 h2 => by rw [h2]⟩
  unfold processState at h
  have := scanFields_data r _ st h
  simpa using this

theorem C9_pure_witness :
    (⟨[("age", vstr "25")], [("age", vstr "25")], false,
        ⟨false, false, false, false⟩⟩ : ScanState).data = [("age", vstr "25")] ∧
      ∀ r2 : Record, r2 = [("age", vstr "25")] →
        processRecord r2 = processRecord [("age", vstr "25")] :=
  C9_pure [("age", vstr "25")] _ (by decide)

/-- C7: evaluation returns normally for every record (the two partial accesses of
the source are guarded by the regex conditions), and a field whose value is not a
string, or is a blank string, is skipped by the matchers: the loop step leaves the
whole state unchanged and cannot fail. -/
theorem C7_total_skip : ∀ r : Record, (processRecord r).isSome = true ∧
    ∀ (st : ScanState) (k : String) (v : Value), skipValue v = true →
      fieldStep st (k, v) = some st := by
  intro r
  refine ⟨processRecord_isSome r, ?_⟩
  intro st k v hv
  cases v with
  | str s =>
      simp only [skipValue] at hv
      simp [fieldStep, hv]
  | num n => rfl
  | bool b => rfl
  | null => rfl

theorem C7_total_skip_witness :
    (processRecord [("age", Value.num 25), ("active", Value.bool true)]).isSome = true ∧
      fieldStep ⟨[], [], false, ⟨false, false, false, false⟩⟩ ("name", vstr "   ")
        = some ⟨[], [], false, ⟨false, false, false, false⟩⟩ :=
  ⟨(C7_total_skip [("age", Value.num 25), ("active", Value.bool true)]).1,
   (C7_total_skip []).2 ⟨[], [], false, ⟨false, false, false, false⟩⟩ "name"
     (vstr "   ") (by decide)⟩

/-- C2: a record in which exactly one combinatorial category is detected and no
standalone rule fires is returned entirely unchanged with `is_pii = false` —
no escalation happens at cardinality 1. -/
theorem C2_single_category (r : Record) (hnd : keysNodup r)
    (hc : catCount (catsOf r) = 1) (hs : anyPii r = false) :
    processRecord r = some (r, false) := by
  have hesc : escalates (catsOf r) = false := by
    unfold escalates
    rw [hc]
    decide
  have hpost : postRecord r = r := by
    unfold postRecord
    rw [hesc]
    simp only [Bool.false_and, combStep, Bool.false_eq_true, if_false]
    exact scanOut_id_of_no_pii r hs
  rw [processRecord_eq r hnd, hpost, hs, hesc]
  rfl

theorem C2_single_category_witness :
    processRecord [("ip_address", vstr "192.168.1.100"), ("device_id", vstr "DEVICE_001")]
      = some ([("ip_address", vstr "192.168.1.100"),
          ("device_id", vstr "DEVICE_001")], false) :=
  C2_single_category
    [("ip_address", vstr "192.168.1.100"), ("device_id", vstr "DEVICE_001")]
    (by decide) (by decide) (by decide)

/-- C4 counterexample: the address transform's own output `"[REDACTED_ADDRESS]"`
re-matches the address trigger (trimmed length > 10), so the claim that every
category's redaction output never matches that category's own trigger is false
(the value simply no longer changes on re-redaction). -/
theorem C4_counterexample :
    combTransform "address" "12 Elm Street, Pune".toList = addressSentinel ∧
    addressCond "address" addressSentinel = true :=
  ⟨by decide, by decide⟩

/-- C4 (amended): for the standalone categories the redacted output never
re-matches the trigger regex (and the UPI sentinel is not UPI-shaped); the
combinatorial transforms may re-match their triggers but are idempotent, so
redacting an already-redacted field again never changes its value further. -/
theorem C4_idempotent (v : List Char) :
    (phoneSearch v = true → phoneSearch (redact_phone v) = false) ∧
    aadharSearch (redact_aadhar v) = false ∧
    (∀ w, redact_passport v = some w → passportSearch w = false) ∧
    upiSearch upiSentinel = false ∧
    redact_name (redact_name v) = redact_name v ∧
    redact_email (redact_email v) = redact_email v ∧
    combTransform "address" (combTransform "address" v) = combTransform "address" v := by
  refine ⟨phoneSearch_redact_phone v, aadharSearch_redact_aadhar v,
    fun w hw => passportSearch_redact_passport v w hw, by decide,
    redact_name_idem v, redact_email_idem v, ?_⟩
  simp [combTransform]

theorem C4_idempotent_witness :
    phoneSearch (redact_phone "9876543210".toList) = false ∧
    passportSearch "AXXXXXX7".toList = false :=
  ⟨(C4_idempotent "9876543210".toList).1 (by decide),
   (C4_idempotent "A1234567".toList).2.2.1 "AXXXXXX7".toList (by decide)⟩

/-- C5 counterexample: the phone transform keeps the first and last two characters
of the raw field value, not of the digit token, and always writes 6 `X`s:
`"ph 9876543210"` becomes `"phXXXXXX10"`, whose first two characters are not
digits. -/
theorem C5_counterexample :
    processRecord [("phone", vstr "ph 9876543210")]
      = some ([("phone", vstr "phXXXXXX10")], true) ∧
    ("phXXXXXX10".toList.take 2).all isDigitB = false :=
  ⟨by decide, by decide⟩

/-- C5 (amended): a `phone`/`contact` string field whose value contains a
10-consecutive-digit whole token is redacted to the first 2 characters of the raw
value, 6 literal `X`s, and the last 2 characters of the raw value (so exactly the
first/last 2 digits when the value is the bare token), and `is_pii` is true. -/
theorem C5_phone (r : Record) (hnd : keysNodup r) (out : Record) (pii : Bool)
    (h : processRecord r = some (out, pii)) (k : String)
    (hk : k = "phone" ∨ k = "contact") (v : List Char)
    (hv : lookupVal r k = some (Value.str v)) (hm : phoneSearch v = true) :
    lookupVal out k = some (Value.str
      (v.take 2 ++ List.replicate 6 'X' ++ v.drop (v.length - 2))) ∧ pii = true := by
  rw [processRecord_eq r hnd] at h
  simp only [Option.some.injEq, Prod.mk.injEq] at h
  obtain ⟨hout, hpii⟩ := h
  subst hout
  constructor
  · rw [postRecord_lookup r k, hv]
    have hsel : combSelected (catsOf r) k = false := by
      rcases hk with rfl | rfl <;>
        exact combSelected_other _ _ (by decide) (by decide) (by decide) (by decide)
          (by decide)
    show some (finalVal (catsOf r) k (Value.str v)) = _
    unfold finalVal
    rw [hsel]
    simp only [Bool.false_eq_true, if_false, step1Val]
    rw [step1ValS_phone k hk v hm]
    rfl
  · rw [← hpii,
      anyPii_of_mem r k (Value.str v) (lookupVal_mem r k _ hv) (step1Pii_phone k hk v hm)]
    rfl

theorem C5_phone_witness :
    lookupVal [("phone", vstr "98XXXXXX10")] "phone"
      = some (Value.str ("9876543210".toList.take 2 ++ List.replicate 6 'X'
          ++ "9876543210".toList.drop ("9876543210".toList.length - 2))) ∧
      (true : Bool) = true :=
  C5_phone [("phone", vstr "9876543210")] (by decide)
    [("phone", vstr "98XXXXXX10")] true (by decide) "phone" (Or.inl rfl)
    "9876543210".toList (by decide) (by decide)

/-- C6 counterexample: for the value `"a@b@c.d"` the text after the `@` contains a
dot under either reading of "the `@`", so the spec's criterion (modelled by
`specUpiStandalone`) rejects it — yet the code redacts it and sets `is_pii`,
because the dot-free check is applied to `value.split('@')[1]`, the segment
between the first and the second `@`. -/
theorem C6_counterexample :
    processRecord [("upi_id", vstr "a@b@c.d")]
      = some ([("upi_id", Value.str upiSentinel)], true) ∧
    specUpiStandalone "a@b@c.d".toList = false :=
  ⟨by decide, by decide⟩

/-- C6 (amended): a `upi_id` string field is replaced by `"[REDACTED_UPI]"` with
`is_pii = true` exactly when `UPI_REGEX` matches and the segment between the first
and second `@` (`value.split('@')[1]`) contains no `.`; in every other case the
field's value is returned unchanged. -/
theorem C6_upi (r : Record) (hnd : keysNodup r) (out : Record) (pii : Bool)
    (h : processRecord r = some (out, pii)) (v : List Char)
    (hv : lookupVal r "upi_id" = some (Value.str v)) :
    ((upiSearch v && upiInner v) = true →
      lookupVal out "upi_id" = some (Value.str upiSentinel) ∧ pii = true) ∧
    ((upiSearch v && upiInner v) = false →
      lookupVal out "upi_id" = some (Value.str v)) := by
  rw [processRecord_eq r hnd] at h
  simp only [Option.some.injEq, Prod.mk.injEq] at h
  obtain ⟨hout, hpii⟩ := h
  subst hout
  have hsel : combSelected (catsOf r) "upi_id" = false :=
    combSelected_other _ _ (by decide) (by decide) (by decide) (by decide) (by decide)
  have hlook : lookupVal (postRecord r) "upi_id"
      = some (Value.str (step1ValS "upi_id" v)) := by
    rw [postRecord_lookup r _, hv]
    show some (finalVal (catsOf r) "upi_id" (Value.str v)) = _
    unfold finalVal
    rw [hsel]
    simp [step1Val]
  constructor
  · intro hcond
    refine ⟨?_, ?_⟩
    · rw [hlook, step1ValS_upi v, if_pos hcond]
    · rw [← hpii,
        anyPii_of_mem r "upi_id" (Value.str v) (lookupVal_mem r _ _ hv)
          (by rw [step1Pii_upi v, hcond])]
      rfl
  · intro hcond
    rw [hlook, step1ValS_upi v, if_neg (by simp [hcond])]

theorem C6_upi_witness :
    (lookupVal [("upi_id", Value.str upiSentinel)] "upi_id"
        = some (Value.str upiSentinel) ∧ (true : Bool) = true) ∧
      lookupVal [("upi_id", vstr "a@b.co")] "upi_id"
        = some (Value.str "a@b.co".toList) :=
  ⟨(C6_upi [("upi_id", vstr "user@upi")] (by decide)
      [("upi_id", Value.str upiSentinel)] true (by decide) "user@upi".toList
      (by decide)).1 (by decide),
   (C6_upi [("upi_id", vstr "a@b.co")] (by decide)
      [("upi_id", vstr "a@b.co")] false (by decide) "a@b.co".toList
      (by decide)).2 (by decide)⟩

/-- C1 counterexample: escalation fires (categories name and device_context), yet
the `device_id` member of the pair, which is present with a non-string value, is
left unchanged rather than replaced by `"[REDACTED_IDENTIFIER]"`. -/
theorem C1_counterexample :
    processRecord [("name", vstr "John Doe"), ("ip_address", vstr "1.2.3.4"),
        ("device_id", Value.num 42)]
      = some ([("name", vstr "JXXX DXX"), ("ip_address", Value.str identifierSentinel),
          ("device_id", Value.num 42)], true) ∧
      Value.num 42 ≠ Value.str identifierSentinel :=
  ⟨by decide, by decide⟩

/-- C1 (amended): when two or more combinatorial categories are detected,
`is_pii` is true and every field of a present category is redacted by that
category's transform — for `device_context`, whichever of `ip_address` and
`device_id` is present with a string value (each independently). -/
theorem C1_escalation (r : Record) (hnd : keysNodup r) (out : Record) (pii : Bool)
    (h : processRecord r = some (out, pii)) (hc : 2 ≤ catCount (catsOf r)) :
    pii = true ∧
    ((catsOf r).name = true → ∀ s, lookupVal r "name" = some (Value.str s) →
      lookupVal out "name" = some (Value.str (redact_name s))) ∧
    ((catsOf r).email = true → ∀ s, lookupVal r "email" = some (Value.str s) →
      lookupVal out "email" = some (Value.str (redact_email s))) ∧
    ((catsOf r).address = true → ∀ s, lookupVal r "address" = some (Value.str s) →
      lookupVal out "address" = some (Value.str addressSentinel)) ∧
    ((catsOf r).device = true → ∀ k, (k = "ip_address" ∨ k = "device_id") →
      ∀ s, lookupVal r k = some (Value.str s) →
        lookupVal out k = some (Value.str identifierSentinel)) := by
  rw [processRecord_eq r hnd] at h
  simp only [Option.some.injEq, Prod.mk.injEq] at h
  obtain ⟨hout, hpii⟩ := h
  subst hout
  have hesc : escalates (catsOf r) = true := by
    unfold escalates
    exact decide_eq_true hc
  refine ⟨?_, ?_, ?_, ?_, ?_⟩
  · rw [← hpii, hesc, Bool.or_true]
  · intro hcn s hv
    rw [postRecord_lookup r _, hv]
    show some (finalVal (catsOf r) "name" (Value.str s)) = _
    rw [finalVal_comb_str _ _ (by rw [combSelected_name, hesc, hcn]; rfl) (Or.inl rfl) s]
    rw [show combTransform "name" s = redact_name s from by simp [combTransform]]
  · intro hce s hv
    rw [postRecord_lookup r _, hv]
    show some (finalVal (catsOf r) "email" (Value.str s)) = _
    rw [finalVal_comb_str _ _ (by rw [combSelected_email, hesc, hce]; rfl)
      (Or.inr (Or.inl rfl)) s]
    rw [show combTransform "email" s = redact_email s from by simp [combTransform]]
  · intro hca s hv
    rw [postRecord_lookup r _, hv]
    show some (finalVal (catsOf r) "address" (Value.str s)) = _
    rw [finalVal_comb_str _ _ (by rw [combSelected_address, hesc, hca]; rfl)
      (Or.inr (Or.inr (Or.inl rfl))) s]
    rw [show combTransform "address" s = addressSentinel from by simp [combTransform]]
  · intro hcd k hk s hv
    rcases hk with rfl | rfl
    · rw [postRecord_lookup r _, hv]
      show some (finalVal (catsOf r) "ip_address" (Value.str s)) = _
      rw [finalVal_comb_str _ _ (by rw [combSelected_ip, hesc, hcd]; rfl)
        (Or.inr (Or.inr (Or.inr (Or.inl rfl)))) s]
      rw [show combTransform "ip_address" s = identifierSentinel from by
        simp [combTransform]]
    · rw [postRecord_lookup r _, hv]
      show some (finalVal (catsOf r) "device_id" (Value.str s)) = _
      rw [finalVal_comb_str _ _ (by rw [combSelected_dev, hesc, hcd]; rfl)
        (Or.inr (Or.inr (Or.inr (Or.inr rfl)))) s]
      rw [show combTransform "device_id" s = identifierSentinel from by
        simp [combTransform]]

theorem C1_escalation_witness :
    lookupVal [("name", vstr "JXXX DXX"), ("ip_address", Value.str identifierSentinel),
        ("device_id", Value.str identifierSentinel)] "name"
      = some (Value.str (redact_name "John Doe".toList)) ∧
    lookupVal [("name", vstr "JXXX DXX"), ("ip_address", Value.str identifierSentinel),
        ("device_id", Value.str identifierSentinel)] "ip_address"
      = some (Value.str identifierSentinel) := by
  have h := C1_escalation
    [("name", vstr "John Doe"), ("ip_address", vstr "1.2.3.4"), ("device_id", vstr "D1")]
    (by decide)
    [("name", vstr "JXXX DXX"), ("ip_address", Value.str identifierSentinel),
      ("device_id", Value.str identifierSentinel)]
    true (by decide) (by decide)
  exact ⟨h.2.1 (by decide) "John Doe".toList (by decide),
    h.2.2.2.2 (by decide) "ip_address" (Or.inl rfl) "1.2.3.4".toList (by decide)⟩

/-- C8: the matcher chain is evaluated per field in the fixed source order, and the
first matching rule consumes the field: every output value is its input value
transformed by at most one transform — either its Step-1 (standalone) outcome, or,
for a combinatorially selected field whose Step-1 pass left it unchanged, exactly
one combinatorial transform. -/
theorem C8_one_rule (r : Record) (hnd : keysNodup r) (out : Record) (pii : Bool)
    (h : processRecord r = some (out, pii)) :
    ∀ k v, lookupVal r k = some v →
      lookupVal out k = some (step1Val k v) ∨
      (step1Val k v = v ∧ ∃ s, v = Value.str s ∧
        lookupVal out k = some (Value.str (combTransform k s))) := by
  rw [processRecord_eq r hnd] at h
  simp only [Option.some.injEq, Prod.mk.injEq] at h
  obtain ⟨hout, _⟩ := h
  subst hout
  intro k v hv
  cases hsel : combSelected (catsOf r) k with
  | false =>
      left
      rw [postRecord_lookup r k, hv]
      show some (finalVal (catsOf r) k v) = _
      unfold finalVal
      rw [hsel]
      simp
  | true =>
      have hk := combSelected_keys _ _ hsel
      have hid := step1Val_comb k hk v
      cases v with
      | str s =>
          right
          refine ⟨hid, s, rfl, ?_⟩
          rw [postRecord_lookup r k, hv]
          show some (finalVal (catsOf r) k (Value.str s)) = _
          rw [finalVal_comb_str _ _ hsel hk s]
      | num n =>
          left
          rw [postRecord_lookup r k, hv]
          show some (finalVal (catsOf r) k (Value.num n)) = _
          unfold finalVal
          rw [hsel, if_pos rfl]
          rfl
      | bool b =>
          left
          rw [postRecord_lookup r k, hv]
          show some (finalVal (catsOf r) k (Value.bool b)) = _
          unfold finalVal
          rw [hsel, if_pos rfl]
          rfl
      | null =>
          left
          rw [postRecord_lookup r k, hv]
          show some (finalVal (catsOf r) k Value.null) = _
          unfold finalVal
          rw [hsel, if_pos rfl]
          rfl

theorem C8_one_rule_witness :
    lookupVal [("phone", vstr "98XXXXXX10")] "phone"
        = some (step1Val "phone" (vstr "9876543210")) ∨
      (step1Val "phone" (vstr "9876543210") = vstr "9876543210" ∧ ∃ s,
        vstr "9876543210" = Value.str s ∧
        lookupVal [("phone", vstr "98XXXXXX10")] "phone"
          = some (Value.str (combTransform "phone" s))) :=
  C8_one_rule [("phone", vstr "9876543210")] (by decide)
    [("phone", vstr "98XXXXXX10")] true (by decide) "phone" (vstr "9876543210")
    (by decide)

/-- C10: when escalation fires with device_context among the present categories,
each of `ip_address` / `device_id` is replaced by `"[REDACTED_IDENTIFIER]"` iff it
is present with a string value: a blank string of the pair is replaced even though
it never matched during detection, a present non-string value is left unchanged,
and an absent key stays absent. -/
theorem C10_device (r : Record) (hnd : keysNodup r) (out : Record) (pii : Bool)
    (h : processRecord r = some (out, pii)) (hc : 2 ≤ catCount (catsOf r))
    (hd : (catsOf r).device = true) (k : String)
    (hk : k = "ip_address" ∨ k = "device_id") :
    (∀ s, lookupVal r k = some (Value.str s) →
      lookupVal out k = some (Value.str identifierSentinel)) ∧
    (∀ v, lookupVal r k = some v → (∀ s, v ≠ Value.str s) →
      lookupVal out k = some v) ∧
    (lookupVal r k = none → lookupVal out k = none) := by
  rw [processRecord_eq r hnd] at h
  simp only [Option.some.injEq, Prod.mk.injEq] at h
  obtain ⟨hout, _⟩ := h
  subst hout
  have hesc : escalates (catsOf r) = true := by
    unfold escalates
    exact decide_eq_true hc
  have hk5 : k = "name" ∨ k = "email" ∨ k = "address" ∨ k = "ip_address" ∨
      k = "device_id" := by
    rcases hk with rfl | rfl <;> tauto
  have hsel : combSelected (catsOf r) k = true := by
    rcases hk with rfl | rfl
    · rw [combSelected_ip, hesc, hd]
      rfl
    · rw [combSelected_dev, hesc, hd]
      rfl
  refine ⟨?_, ?_, ?_⟩
  · intro s hv
    rw [postRecord_lookup r k, hv]
    show some (finalVal (catsOf r) k (Value.str s)) = _
    rw [finalVal_comb_str _ _ hsel hk5 s]
    rcases hk with rfl | rfl
    · rw [show combTransform "ip_address" s = identifierSentinel from by
        simp [combTransform]]
    · rw [show combTransform "device_id" s = identifierSentinel from by
        simp [combTransform]]
  · intro v hv hnostr
    rw [postRecord_lookup r k, hv]
    show some (finalVal (catsOf r) k v) = some v
    rw [finalVal_nonstr _ _ v hnostr]
  · intro hnone
    rw [postRecord_lookup r k, hnone]
    rfl

theorem C10_device_witness :
    lookupVal [("name", vstr "JXXX DXX"), ("ip_address", Value.str identifierSentinel),
        ("device_id", Value.str identifierSentinel)] "ip_address"
      = some (Value.str identifierSentinel) ∧
    lookupVal [("name", vstr "JXXX DXX"), ("ip_address", Value.str identifierSentinel),
        ("device_id", Value.num 9)] "device_id" = some (Value.num 9) ∧
    lookupVal [("name", vstr "JXXX DXX"), ("device_id", Value.str identifierSentinel)]
      "ip_address" = none := by
  refine ⟨?_, ?_, ?_⟩
  · exact (C10_device
      [("name", vstr "John Doe"), ("ip_address", vstr "  "), ("device_id", vstr "D1")]
      (by decide)
      [("name", vstr "JXXX DXX"), ("ip_address", Value.str identifierSentinel),
        ("device_id", Value.str identifierSentinel)]
      true (by decide) (by decide) (by decide) "ip_address" (Or.inl rfl)).1
      "  ".toList (by decide)
  · exact (C10_device
      [("name", vstr "John Doe"), ("ip_address", vstr "1.2.3.4"),
        ("device_id", Value.num 9)]
      (by decide)
      [("name", vstr "JXXX DXX"), ("ip_address", Value.str identifierSentinel),
        ("device_id", Value.num 9)]
      true (by decide) (by decide) (by decide) "device_id" (Or.inr rfl)).2.1
      (Value.num 9) (by decide) (fun s h => Value.noConfusion h)
  · exact (C10_device
      [("name", vstr "John Doe"), ("device_id", vstr "D1")]
      (by decide)
      [("name", vstr "JXXX DXX"), ("device_id", Value.str identifierSentinel)]
      true (by decide) (by decide) (by decide) "ip_address" (Or.inl rfl)).2.2
      (by decide)

end PII
